import Mathlib

/-!
# Verification of the uni_search crawl-and-index pipeline

Shallow embedding of the Python sources of the uni_search repository
(crawler.py, indexer.py, indexer_crawler.py, ai_searcher.py, app.py) and
proofs about them.  Machine-level concerns (HTTP, the DOM parser, the
external Groq analyzer, the fuzzy-matching library) enter as explicit
oracles/parameters; everything the claims depend on is translated
directly from the Python code.
-/

namespace UniSearch

/-! ## List helpers -/

theorem takeWhile_append_all {α} (p : α → Bool) (a b : List α)
    (h : ∀ x ∈ a, p x = true) :
    (a ++ b).takeWhile p = a ++ b.takeWhile p := by
  induction a with
  | nil => simp
  | cons x xs ih =>
    have hx : p x = true := h x (by simp)
    simp only [List.cons_append, List.takeWhile_cons, hx, if_true]
    rw [ih (fun y hy => h y (by simp [hy]))]

theorem dropWhile_append_all {α} (p : α → Bool) (a b : List α)
    (h : ∀ x ∈ a, p x = true) :
    (a ++ b).dropWhile p = b.dropWhile p := by
  induction a with
  | nil => simp
  | cons x xs ih =>
    have hx : p x = true := h x (by simp)
    simp only [List.cons_append, List.dropWhile_cons, hx, if_true]
    exact ih (fun y hy => h y (by simp [hy]))

theorem takeWhile_eq_self_of_all {α} (p : α → Bool) (l : List α)
    (h : ∀ x ∈ l, p x = true) : l.takeWhile p = l := by
  induction l with
  | nil => simp
  | cons x xs ih =>
    simp only [List.takeWhile_cons, h x (by simp), if_true]
    rw [ih (fun y hy => h y (by simp [hy]))]

theorem mem_of_mem_dropWhile {α} {p : α → Bool} {l : List α} {x : α}
    (h : x ∈ l.dropWhile p) : x ∈ l :=
  (List.dropWhile_sublist p (l := l)).mem h

/-! ## URL parsing

Model of urllib.parse.urlparse restricted to the fields the repository
reads (scheme, netloc, path, query, fragment), following CPython urlsplit:
the scheme is recognised before the first colon when it is non-empty and
made of scheme characters, and is lowercased; a netloc follows a leading
double slash and runs to the first of slash / question mark / hash; the
fragment is split at the first hash, then the query at the first question
mark. -/

def schemeChar (c : Char) : Bool :=
  c.isAlpha || c.isDigit || c == '+' || c == '-' || c == '.'

def netlocEnd (c : Char) : Bool :=
  c == '/' || c == '?' || c == '#'

/-- Python str.lower for one character, restricted to the ASCII range (the
characters this model ever lowercases pass the ASCII schemeChar test). -/
def lowerChar (c : Char) : Char :=
  if 65 ≤ c.toNat ∧ c.toNat ≤ 90 then Char.ofNat (c.toNat + 32) else c

structure ParsedUrl where
  scheme : List Char
  netloc : List Char
  path : List Char
  query : List Char
  fragment : List Char
  deriving Repr, DecidableEq

/-- CPython urlsplit scheme recognition: the part before the first colon,
when non-empty and made of scheme characters, lowercased. -/
def splitScheme (u : List Char) : List Char × List Char :=
  if !(u.takeWhile (fun c => c != ':')).isEmpty
      && (u.takeWhile (fun c => c != ':')).all schemeChar
      && !(u.dropWhile (fun c => c != ':')).isEmpty
  then ((u.takeWhile (fun c => c != ':')).map lowerChar,
        (u.dropWhile (fun c => c != ':')).tail)
  else ([], u)

/-- CPython urlsplit netloc recognition: after a leading double slash, up to
the first slash / question mark / hash. -/
def splitNetloc (rest : List Char) : List Char × List Char :=
  match rest with
  | '/' :: '/' :: r =>
      (r.takeWhile (fun c => !netlocEnd c), r.dropWhile (fun c => !netlocEnd c))
  | _ => ([], rest)

def parseUrlChars (u : List Char) : ParsedUrl :=
  let (scheme, rest) := splitScheme u
  let (netloc, rest2) := splitNetloc rest
  let beforeFrag := rest2.takeWhile (fun c => c != '#')
  let fragment := (rest2.dropWhile (fun c => c != '#')).tail
  let path := beforeFrag.takeWhile (fun c => c != '?')
  let query := (beforeFrag.dropWhile (fun c => c != '?')).tail
  ⟨scheme, netloc, path, query, fragment⟩

/-- crawler.py normalize_url, character-list level:
f-string scheme ++ "://" ++ netloc ++ path. -/
def normalizeChars (u : List Char) : List Char :=
  let p := parseUrlChars u
  p.scheme ++ (':' :: '/' :: '/' :: []) ++ p.netloc ++ p.path

/-- crawler.py WebCrawler.normalize_url: remove fragment (and query) and
rebuild the URL from scheme, netloc and path. -/
def normalize_url (s : String) : String :=
  ⟨normalizeChars s.data⟩

/-- urlparse(url).netloc, string level. -/
def urlNetloc (s : String) : String :=
  ⟨(parseUrlChars s.data).netloc⟩

/-! ## Character-level facts used by the normalization proofs -/

theorem toNat_ofNat_of_valid (n : Nat) (h : n.isValidChar) :
    (Char.ofNat n).toNat = n := by
  unfold Char.ofNat
  rw [dif_pos h]
  rfl

theorem toNat_lowerChar (c : Char) :
    (lowerChar c).toNat =
      if 65 ≤ c.toNat ∧ c.toNat ≤ 90 then c.toNat + 32 else c.toNat := by
  unfold lowerChar
  split
  · next h =>
      refine toNat_ofNat_of_valid _ (Or.inl ?_)
      omega
  · rfl

theorem lowerChar_eq_self (c : Char) (h : ¬(65 ≤ c.toNat ∧ c.toNat ≤ 90)) :
    lowerChar c = c := by
  unfold lowerChar
  rw [if_neg h]

theorem lowerChar_lowerChar (c : Char) : lowerChar (lowerChar c) = lowerChar c := by
  by_cases h : 65 ≤ c.toNat ∧ c.toNat ≤ 90
  · apply lowerChar_eq_self
    rw [toNat_lowerChar, if_pos h]
    omega
  · rw [lowerChar_eq_self c h]
    exact lowerChar_eq_self c h

theorem isLower_of_toNat (c : Char) (h1 : 97 ≤ c.toNat) (h2 : c.toNat ≤ 122) :
    c.isLower = true := by
  simp only [Char.isLower, Bool.and_eq_true, decide_eq_true_eq]
  exact ⟨h1, h2⟩

theorem isUpper_of_toNat (c : Char) (h1 : 65 ≤ c.toNat) (h2 : c.toNat ≤ 90) :
    c.isUpper = true := by
  simp only [Char.isUpper, Bool.and_eq_true, decide_eq_true_eq]
  exact ⟨h1, h2⟩

theorem schemeChar_lowerChar (c : Char) : schemeChar (lowerChar c) = schemeChar c := by
  by_cases h : 65 ≤ c.toNat ∧ c.toNat ≤ 90
  · have hup : c.isUpper = true := isUpper_of_toNat c h.1 h.2
    have hlow : (lowerChar c).isLower = true := by
      apply isLower_of_toNat <;> rw [toNat_lowerChar, if_pos h] <;> omega
    simp [schemeChar, Char.isAlpha, hup, hlow]
  · rw [lowerChar_eq_self c h]

theorem schemeChar_ne_colon {c : Char} (h : schemeChar c = true) :
    (c != ':') = true := by
  by_contra hne
  have hc : c = ':' := by simpa using hne
  subst hc
  exact absurd h (by decide)

/-! ## Facts about splitScheme / splitNetloc and URL normalization -/

theorem splitScheme_append (S t : List Char) (hS : S ≠ [])
    (hall : ∀ x ∈ S, schemeChar x = true) :
    splitScheme (S ++ ':' :: t) = (S.map lowerChar, t) := by
  have hne : ∀ x ∈ S, (x != ':') = true := fun x hx => schemeChar_ne_colon (hall x hx)
  have htake : (S ++ ':' :: t).takeWhile (fun c => c != ':') = S := by
    rw [takeWhile_append_all _ S (':' :: t) hne]
    simp [List.takeWhile_cons]
  have hdrop : (S ++ ':' :: t).dropWhile (fun c => c != ':') = ':' :: t := by
    rw [dropWhile_append_all _ S (':' :: t) hne]
    simp [List.dropWhile_cons]
  unfold splitScheme
  simp only [htake, hdrop]
  have hcond : (!S.isEmpty && S.all schemeChar && !(':' :: t : List Char).isEmpty) = true := by
    simp [List.all_eq_true, List.isEmpty_iff, hS]
    exact hall
  rw [if_pos hcond]
  simp

theorem splitScheme_cases (u : List Char) :
    splitScheme u = ([], u) ∨
    ∃ pre, pre = u.takeWhile (fun c => c != ':') ∧ pre ≠ [] ∧
      (∀ x ∈ pre, schemeChar x = true) ∧
      splitScheme u = (pre.map lowerChar, (u.dropWhile (fun c => c != ':')).tail) := by
  unfold splitScheme
  split
  · next hcond =>
      right
      simp only [Bool.and_eq_true, Bool.not_eq_true', List.all_eq_true] at hcond
      refine ⟨_, rfl, ?_, hcond.1.2, rfl⟩
      intro hemp
      rw [hemp] at hcond
      simp at hcond
  · left; rfl

theorem splitNetloc_dslash (r : List Char) :
    splitNetloc ('/' :: '/' :: r) =
      (r.takeWhile (fun c => !netlocEnd c), r.dropWhile (fun c => !netlocEnd c)) := rfl

theorem splitNetloc_netloc_all (rest : List Char) :
    ∀ x ∈ (splitNetloc rest).1, netlocEnd x = false := by
  unfold splitNetloc
  split
  · intro x hx
    have := List.mem_takeWhile_imp hx
    simpa using this
  · intro x hx
    simp at hx

theorem parseUrlChars_def (u : List Char) :
    parseUrlChars u =
      ⟨(splitScheme u).1,
       (splitNetloc (splitScheme u).2).1,
       (((splitNetloc (splitScheme u).2).2).takeWhile (fun c => c != '#')).takeWhile
         (fun c => c != '?'),
       ((((splitNetloc (splitScheme u).2).2).takeWhile (fun c => c != '#')).dropWhile
         (fun c => c != '?')).tail,
       ((splitNetloc (splitScheme u).2).2.dropWhile (fun c => c != '#')).tail⟩ := by
  unfold parseUrlChars
  rcases hs : splitScheme u with ⟨S, rest⟩
  rcases hn : splitNetloc rest with ⟨N, r2⟩
  simp [hs, hn]


theorem path_all (u : List Char) :
    ∀ x ∈ (parseUrlChars u).path, (x != '#') = true ∧ (x != '?') = true := by
  rw [parseUrlChars_def]
  dsimp only
  intro x hx
  have hx2 : x ∈ (splitNetloc (splitScheme u).2).2.takeWhile (fun c => c != '#') :=
    (List.takeWhile_sublist _).mem hx
  have h1 := @List.mem_takeWhile_imp Char (fun c => c != '#')
    ((splitNetloc (splitScheme u).2).2) x hx2
  have h2 := @List.mem_takeWhile_imp Char (fun c => c != '?')
    ((splitNetloc (splitScheme u).2).2.takeWhile (fun c => c != '#')) x hx
  exact ⟨h1, h2⟩

theorem normalizeChars_idem (u : List Char)
    (h : (parseUrlChars u).scheme ≠ []) :
    normalizeChars (normalizeChars u) = normalizeChars u := by
  rcases splitScheme_cases u with h0 | ⟨pre, hpreEq, hpreNe, hall, heq⟩
  · exfalso
    apply h
    rw [parseUrlChars_def, h0]
  · have hSall : ∀ x ∈ pre.map lowerChar, schemeChar x = true := by
      intro x hx
      rcases List.mem_map.mp hx with ⟨y, hy, rfl⟩
      rw [schemeChar_lowerChar]
      exact hall y hy
    have hSmap : (pre.map lowerChar).map lowerChar = pre.map lowerChar := by
      rw [List.map_map]
      exact List.map_congr_left (fun y _ => lowerChar_lowerChar y)
    have hSne : pre.map lowerChar ≠ [] := by
      simpa using hpreNe
    -- components of the parse of u
    set S := pre.map lowerChar with hSdef
    set rest := (u.dropWhile (fun c => c != ':')).tail with hrest
    set N := (splitNetloc rest).1 with hN
    set r2 := (splitNetloc rest).2 with hr2
    set P := (r2.takeWhile (fun c => c != '#')).takeWhile (fun c => c != '?') with hP
    have hNall : ∀ x ∈ N, (!netlocEnd x) = true := by
      intro x hx
      have := splitNetloc_netloc_all rest x hx
      simp [this]
    have hPall : ∀ x ∈ P, (x != '#') = true ∧ (x != '?') = true := by
      have := path_all u
      rw [parseUrlChars_def, heq] at this
      exact this
    have hnormu : normalizeChars u = S ++ ':' :: '/' :: '/' :: (N ++ P) := by
      rw [normalizeChars, parseUrlChars_def, heq]
      simp [hN, hr2, hP]
    rw [hnormu]
    have hsplit2 : splitScheme (S ++ ':' :: ('/' :: '/' :: (N ++ P))) =
        (S, '/' :: '/' :: (N ++ P)) := by
      rw [splitScheme_append S _ hSne hSall, hSmap]
    have htakeN : (N ++ P).takeWhile (fun c => !netlocEnd c) =
        N ++ P.takeWhile (fun c => !netlocEnd c) :=
      takeWhile_append_all _ N P hNall
    have hdropN : (N ++ P).dropWhile (fun c => !netlocEnd c) =
        P.dropWhile (fun c => !netlocEnd c) :=
      dropWhile_append_all _ N P hNall
    have hDall : ∀ x ∈ P.dropWhile (fun c => !netlocEnd c),
        (x != '#') = true ∧ (x != '?') = true :=
      fun x hx => hPall x (mem_of_mem_dropWhile hx)
    have hfrag : (P.dropWhile (fun c => !netlocEnd c)).takeWhile (fun c => c != '#') =
        P.dropWhile (fun c => !netlocEnd c) :=
      takeWhile_eq_self_of_all _ _ (fun x hx => (hDall x hx).1)
    have hquery : (P.dropWhile (fun c => !netlocEnd c)).takeWhile (fun c => c != '?') =
        P.dropWhile (fun c => !netlocEnd c) :=
      takeWhile_eq_self_of_all _ _ (fun x hx => (hDall x hx).2)
    rw [normalizeChars, parseUrlChars_def, hsplit2]
    simp only [splitNetloc_dslash, htakeN, hdropN, hfrag, hquery]
    simp [List.append_assoc, List.takeWhile_append_dropWhile]

/-! ## C10: normalization idempotence -/

/-- C10: URL normalization is idempotent on every URL (an input whose parse
has a scheme), and normalize_url rebuilds only scheme, netloc and path, so
two URLs that differ only in their query or fragment are mapped to the same
NormalizedURL. -/
theorem c10_normalize_url_idempotent_query_fragment_insensitive :
    (∀ s : String, (parseUrlChars s.data).scheme ≠ [] →
        normalize_url (normalize_url s) = normalize_url s) ∧
    (∀ s t : String,
        (parseUrlChars s.data).scheme = (parseUrlChars t.data).scheme →
        (parseUrlChars s.data).netloc = (parseUrlChars t.data).netloc →
        (parseUrlChars s.data).path = (parseUrlChars t.data).path →
        normalize_url s = normalize_url t) := by
  constructor
  · intro s h
    simp only [normalize_url]
    exact congrArg String.mk (normalizeChars_idem s.data h)
  · intro s t h1 h2 h3
    simp only [normalize_url, normalizeChars, h1, h2, h3]

theorem c10_witness :
    ((parseUrlChars "https://e.org/p?q=1#f".data).scheme ≠ [] ∧
      normalize_url (normalize_url "https://e.org/p?q=1#f") =
        normalize_url "https://e.org/p?q=1#f") ∧
    ((parseUrlChars "https://e.org/p?a=1#x".data).scheme =
        (parseUrlChars "https://e.org/p?b=2#y".data).scheme ∧
      (parseUrlChars "https://e.org/p?a=1#x".data).netloc =
        (parseUrlChars "https://e.org/p?b=2#y".data).netloc ∧
      (parseUrlChars "https://e.org/p?a=1#x".data).path =
        (parseUrlChars "https://e.org/p?b=2#y".data).path ∧
      normalize_url "https://e.org/p?a=1#x" = normalize_url "https://e.org/p?b=2#y") :=
  ⟨⟨by decide, c10_normalize_url_idempotent_query_fragment_insensitive.1 _ (by decide)⟩,
   by decide, by decide, by decide,
   c10_normalize_url_idempotent_query_fragment_insensitive.2 _ _
     (by decide) (by decide) (by decide)⟩

/-! ## crawler.py WebCrawler

The web enters as a parameter: fetch url = none models a
requests.exceptions.RequestException (or non-2xx status raised by
raise_for_status) in get_page_content, fetch url = some raw gives the
urljoin-resolved href attributes of the fetched page in document order.
fetchLog is a ghost field recording every call to get_page_content. -/

namespace Crawler

/-- crawler.py WebCrawler.is_valid_url: the parsed netloc equals the
configured domain (urlparse(base_url).netloc). -/
def is_valid_url (domain url : String) : Bool :=
  urlNetloc url == domain

/-- Python set.add on an insertion-ordered duplicate-free list. -/
def pySetAdd (l : List String) (x : String) : List String :=
  if x ∈ l then l else l ++ [x]

/-- Body of the for loop of WebCrawler.extract_links: normalize one href
and add it to the set when in-domain. -/
def extractStep (domain : String) (acc : List String) (href : String) : List String :=
  if is_valid_url domain (normalize_url href) then pySetAdd acc (normalize_url href)
  else acc

/-- crawler.py WebCrawler.extract_links: each raw link is normalized, kept
when in-domain, and collected into a set. -/
def extract_links (domain : String) (raw : List String) : List String :=
  raw.foldl (extractStep domain) []

structure CrawlState where
  visited : List String
  allLinks : List String
  toVisit : List String
  failed : List String
  pagesCrawled : Nat
  fetchLog : List String
  deriving Repr, DecidableEq

/-- WebCrawler.__init__: to_visit = deque([base_url]), everything else
empty.  Note the seed is the raw base_url, not its normalization. -/
def initState (base : String) : CrawlState :=
  ⟨[], [], [base], [], 0, []⟩

/-- One iteration of the while loop in WebCrawler.crawl; identity once the
loop guard (to_visit non-empty and pages_crawled < max_pages) fails. -/
def crawlStep (fetch : String → Option (List String)) (domain : String)
    (maxPages : Nat) (st : CrawlState) : CrawlState :=
  match st.toVisit with
  | [] => st
  | current :: rest =>
    if st.pagesCrawled < maxPages then
      if current ∈ st.visited then { st with toVisit := rest }
      else
        match fetch current with
        | none =>
            { st with
                toVisit := rest
                failed := st.failed ++ [current]
                fetchLog := st.fetchLog ++ [current] }
        | some raw =>
            let visited2 := st.visited ++ [current]
            let pageLinks := extract_links domain raw
            { visited := visited2
              allLinks := pageLinks.foldl pySetAdd st.allLinks
              toVisit := rest ++ pageLinks.filter (fun l => decide (l ∉ visited2))
              failed := st.failed
              pagesCrawled := st.pagesCrawled + 1
              fetchLog := st.fetchLog ++ [current] }
    else st

/-- State of WebCrawler.crawl after n loop iterations. -/
def crawlRun (fetch : String → Option (List String)) (base : String)
    (maxPages : Nat) : Nat → CrawlState
  | 0 => initState base
  | n + 1 => crawlStep fetch (urlNetloc base) maxPages (crawlRun fetch base maxPages n)

/-- The loop guard of WebCrawler.crawl. -/
def guard (maxPages : Nat) (st : CrawlState) : Prop :=
  st.toVisit ≠ [] ∧ st.pagesCrawled < maxPages

instance (maxPages : Nat) (st : CrawlState) : Decidable (guard maxPages st) := by
  unfold guard
  infer_instance

theorem crawlStep_of_not_guard (fetch : String → Option (List String))
    (domain : String) (maxPages : Nat) (st : CrawlState)
    (h : ¬ guard maxPages st) : crawlStep fetch domain maxPages st = st := by
  unfold guard at h
  push_neg at h
  unfold crawlStep
  match hv : st.toVisit with
  | [] => rfl
  | current :: rest =>
    have hge : ¬ st.pagesCrawled < maxPages := by
      have := h (by simp [hv])
      omega
    simp only [hge, if_false]

theorem crawlStep_skip (fetch : String → Option (List String))
    (domain : String) (maxPages : Nat) (st : CrawlState) (current : String)
    (rest : List String) (hv : st.toVisit = current :: rest)
    (hpg : st.pagesCrawled < maxPages) (hvis : current ∈ st.visited) :
    crawlStep fetch domain maxPages st = { st with toVisit := rest } := by
  unfold crawlStep
  simp only [hv, hpg, if_true, hvis]

theorem crawlStep_fail (fetch : String → Option (List String))
    (domain : String) (maxPages : Nat) (st : CrawlState) (current : String)
    (rest : List String) (hv : st.toVisit = current :: rest)
    (hpg : st.pagesCrawled < maxPages) (hvis : current ∉ st.visited)
    (hf : fetch current = none) :
    crawlStep fetch domain maxPages st =
      { st with
          toVisit := rest
          failed := st.failed ++ [current]
          fetchLog := st.fetchLog ++ [current] } := by
  unfold crawlStep
  simp only [hv, hpg, if_true, hvis, if_false, hf]

theorem crawlStep_visit (fetch : String → Option (List String))
    (domain : String) (maxPages : Nat) (st : CrawlState) (current : String)
    (rest : List String) (raw : List String) (hv : st.toVisit = current :: rest)
    (hpg : st.pagesCrawled < maxPages) (hvis : current ∉ st.visited)
    (hf : fetch current = some raw) :
    crawlStep fetch domain maxPages st =
      { visited := st.visited ++ [current]
        allLinks := (extract_links domain raw).foldl pySetAdd st.allLinks
        toVisit := rest ++ (extract_links domain raw).filter
          (fun l => decide (l ∉ st.visited ++ [current]))
        failed := st.failed
        pagesCrawled := st.pagesCrawled + 1
        fetchLog := st.fetchLog ++ [current] } := by
  unfold crawlStep
  simp only [hv, hpg, if_true, hvis, if_false, hf]

theorem mem_pySetAdd {l : List String} {x y : String}
    (h : y ∈ pySetAdd l x) : y ∈ l ∨ y = x := by
  unfold pySetAdd at h
  split at h
  · exact Or.inl h
  · rcases List.mem_append.mp h with h1 | h1
    · exact Or.inl h1
    · exact Or.inr (by simpa using h1)

theorem mem_extractStep {domain : String} {acc : List String} {href y : String}
    (h : y ∈ extractStep domain acc href) :
    y ∈ acc ∨ (y = normalize_url href ∧ urlNetloc y = domain) := by
  unfold extractStep at h
  split at h
  · next hval =>
      rcases mem_pySetAdd h with h1 | rfl
      · exact Or.inl h1
      · refine Or.inr ⟨rfl, ?_⟩
        unfold is_valid_url at hval
        simpa using hval
  · exact Or.inl h

theorem mem_foldl_extractStep {domain x : String} :
    ∀ {raw acc : List String}, x ∈ raw.foldl (extractStep domain) acc →
      x ∈ acc ∨ urlNetloc x = domain := by
  intro raw
  induction raw with
  | nil => intro acc h; exact Or.inl h
  | cons r rs ih =>
    intro acc h
    simp only [List.foldl_cons] at h
    rcases ih h with h1 | h1
    · rcases mem_extractStep h1 with h2 | h2
      · exact Or.inl h2
      · exact Or.inr h2.2
    · exact Or.inr h1

theorem mem_extract_links {domain : String} {raw : List String} {x : String}
    (h : x ∈ extract_links domain raw) : urlNetloc x = domain := by
  unfold extract_links at h
  rcases mem_foldl_extractStep h with h1 | h1
  · simp at h1
  · exact h1

theorem mem_foldl_pySetAdd {x : String} :
    ∀ {ls acc : List String}, x ∈ ls.foldl pySetAdd acc → x ∈ acc ∨ x ∈ ls := by
  intro ls
  induction ls with
  | nil => intro acc h; exact Or.inl h
  | cons l ls ih =>
    intro acc h
    simp only [List.foldl_cons] at h
    rcases ih h with h1 | h1
    · rcases mem_pySetAdd h1 with h2 | h2
      · exact Or.inl h2
      · exact Or.inr (by simp [h2])
    · exact Or.inr (by simp [h1])

/-- Every URL appearing anywhere in the crawler state is in-domain. -/
def inDomain (domain : String) (st : CrawlState) : Prop :=
  (∀ u ∈ st.toVisit, urlNetloc u = domain) ∧
  (∀ u ∈ st.allLinks, urlNetloc u = domain) ∧
  (∀ u ∈ st.visited, urlNetloc u = domain) ∧
  (∀ u ∈ st.failed, urlNetloc u = domain) ∧
  (∀ u ∈ st.fetchLog, urlNetloc u = domain)

theorem inDomain_step (fetch : String → Option (List String)) (domain : String)
    (maxPages : Nat) (st : CrawlState) (h : inDomain domain st) :
    inDomain domain (crawlStep fetch domain maxPages st) := by
  obtain ⟨htv, hal, hvis, hfail, hlog⟩ := h
  by_cases hg : guard maxPages st
  · obtain ⟨hne, hpg⟩ := hg
    match hv : st.toVisit with
    | [] => exact absurd hv hne
    | current :: rest =>
      have hcur : urlNetloc current = domain := htv current (by simp [hv])
      have hrest : ∀ u ∈ rest, urlNetloc u = domain := fun u hu => htv u (by simp [hv, hu])
      by_cases hv2 : current ∈ st.visited
      · rw [crawlStep_skip fetch domain maxPages st current rest hv hpg hv2]
        exact ⟨hrest, hal, hvis, hfail, hlog⟩
      · rcases hfc : fetch current with _ | raw
        · rw [crawlStep_fail fetch domain maxPages st current rest hv hpg hv2 hfc]
          refine ⟨hrest, hal, hvis, ?_, ?_⟩ <;>
          · intro u hu
            rcases List.mem_append.mp hu with h1 | h1
            · first
              | exact hfail u h1
              | exact hlog u h1
            · simp at h1
              subst h1
              exact hcur
        · rw [crawlStep_visit fetch domain maxPages st current rest raw hv hpg hv2 hfc]
          refine ⟨?_, ?_, ?_, hfail, ?_⟩
          · intro u hu
            rcases List.mem_append.mp hu with h1 | h1
            · exact hrest u h1
            · exact mem_extract_links (List.mem_of_mem_filter h1)
          · intro u hu
            rcases mem_foldl_pySetAdd hu with h1 | h1
            · exact hal u h1
            · exact mem_extract_links h1
          · intro u hu
            rcases List.mem_append.mp hu with h1 | h1
            · exact hvis u h1
            · simp at h1
              subst h1
              exact hcur
          · intro u hu
            rcases List.mem_append.mp hu with h1 | h1
            · exact hlog u h1
            · simp at h1
              subst h1
              exact hcur
  · rw [crawlStep_of_not_guard fetch domain maxPages st hg]
    exact ⟨htv, hal, hvis, hfail, hlog⟩

/-! ### Reachable-state facts and the claims about the Frontier -/

theorem inDomain_run (fetch : String → Option (List String)) (base : String)
    (maxPages : Nat) : ∀ n, inDomain (urlNetloc base) (crawlRun fetch base maxPages n) := by
  intro n
  induction n with
  | zero =>
      refine ⟨?_, by simp [crawlRun, initState], by simp [crawlRun, initState],
        by simp [crawlRun, initState], by simp [crawlRun, initState]⟩
      intro u hu
      simp [crawlRun, initState] at hu
      simp [hu]
  | succ n ih => exact inDomain_step fetch (urlNetloc base) maxPages _ ih

/-- C6: a URL whose host differs from the configured target host is never
enqueued, never counted as discovered, never visited or failed, and never
fetched, in every reachable state of the crawl loop. -/
theorem c6_out_of_domain_never_enqueued (fetch : String → Option (List String))
    (base : String) (maxPages n : Nat) (u : String)
    (h : urlNetloc u ≠ urlNetloc base) :
    u ∉ (crawlRun fetch base maxPages n).toVisit ∧
    u ∉ (crawlRun fetch base maxPages n).allLinks ∧
    u ∉ (crawlRun fetch base maxPages n).visited ∧
    u ∉ (crawlRun fetch base maxPages n).failed ∧
    u ∉ (crawlRun fetch base maxPages n).fetchLog := by
  obtain ⟨h1, h2, h3, h4, h5⟩ := inDomain_run fetch base maxPages n
  exact ⟨fun hu => h (h1 u hu), fun hu => h (h2 u hu), fun hu => h (h3 u hu),
    fun hu => h (h4 u hu), fun hu => h (h5 u hu)⟩

theorem c6_witness :
    urlNetloc "https://other.example/page" ≠ urlNetloc "https://example.org/" ∧
    ("https://other.example/page" ∉
        (crawlRun (fun _ => some []) "https://example.org/" 10 5).toVisit ∧
      "https://other.example/page" ∉
        (crawlRun (fun _ => some []) "https://example.org/" 10 5).allLinks ∧
      "https://other.example/page" ∉
        (crawlRun (fun _ => some []) "https://example.org/" 10 5).visited ∧
      "https://other.example/page" ∉
        (crawlRun (fun _ => some []) "https://example.org/" 10 5).failed ∧
      "https://other.example/page" ∉
        (crawlRun (fun _ => some []) "https://example.org/" 10 5).fetchLog) :=
  ⟨by decide,
   c6_out_of_domain_never_enqueued (fun _ => some []) "https://example.org/" 10 5
     "https://other.example/page" (by decide)⟩

/-! ### Duplicate-freeness invariants -/

theorem nodup_pySetAdd {l : List String} {x : String} (h : l.Nodup) :
    (pySetAdd l x).Nodup := by
  unfold pySetAdd
  split
  · exact h
  · next hx => simp [List.nodup_append, h, hx]

theorem nodup_foldl_pySetAdd {ls : List String} :
    ∀ {acc : List String}, acc.Nodup → (ls.foldl pySetAdd acc).Nodup := by
  induction ls with
  | nil => intro acc h; exact h
  | cons l ls ih =>
    intro acc h
    simp only [List.foldl_cons]
    exact ih (nodup_pySetAdd h)

theorem crawlRun_nodup (fetch : String → Option (List String)) (base : String)
    (maxPages : Nat) : ∀ n,
    (crawlRun fetch base maxPages n).visited.Nodup ∧
    (crawlRun fetch base maxPages n).allLinks.Nodup := by
  intro n
  induction n with
  | zero => constructor <;> simp [crawlRun, initState]
  | succ n ih =>
    obtain ⟨ihv, iha⟩ := ih
    show (crawlStep fetch (urlNetloc base) maxPages
        (crawlRun fetch base maxPages n)).visited.Nodup ∧
      (crawlStep fetch (urlNetloc base) maxPages
        (crawlRun fetch base maxPages n)).allLinks.Nodup
    set st := crawlRun fetch base maxPages n with hst
    by_cases hg : guard maxPages st
    · obtain ⟨hne, hpg⟩ := hg
      match hv : st.toVisit with
      | [] => exact absurd hv hne
      | current :: rest =>
        by_cases hv2 : current ∈ st.visited
        · rw [crawlStep_skip fetch _ maxPages st current rest hv hpg hv2]
          exact ⟨ihv, iha⟩
        · rcases hfc : fetch current with _ | raw
          · rw [crawlStep_fail fetch _ maxPages st current rest hv hpg hv2 hfc]
            exact ⟨ihv, iha⟩
          · rw [crawlStep_visit fetch _ maxPages st current rest raw hv hpg hv2 hfc]
            constructor
            · simp [List.nodup_append, ihv, hv2]
            · exact nodup_foldl_pySetAdd iha
    · rw [crawlStep_of_not_guard fetch _ maxPages st hg]
      exact ⟨ihv, iha⟩

theorem visited_sprefix_step (fetch : String → Option (List String))
    (domain : String) (maxPages : Nat) (st : CrawlState) :
    st.visited <+: (crawlStep fetch domain maxPages st).visited := by
  by_cases hg : guard maxPages st
  · obtain ⟨hne, hpg⟩ := hg
    match hv : st.toVisit with
    | [] => exact absurd hv hne
    | current :: rest =>
      by_cases hv2 : current ∈ st.visited
      · rw [crawlStep_skip fetch domain maxPages st current rest hv hpg hv2]
      · rcases hfc : fetch current with _ | raw
        · rw [crawlStep_fail fetch domain maxPages st current rest hv hpg hv2 hfc]
        · rw [crawlStep_visit fetch domain maxPages st current rest raw hv hpg hv2 hfc]
          exact ⟨[current], rfl⟩
  · rw [crawlStep_of_not_guard fetch domain maxPages st hg]

theorem fetchLog_step (fetch : String → Option (List String))
    (domain : String) (maxPages : Nat) (st : CrawlState) :
    (crawlStep fetch domain maxPages st).fetchLog = st.fetchLog ∨
    ∃ u, u ∉ st.visited ∧
      (crawlStep fetch domain maxPages st).fetchLog = st.fetchLog ++ [u] := by
  by_cases hg : guard maxPages st
  · obtain ⟨hne, hpg⟩ := hg
    match hv : st.toVisit with
    | [] => exact absurd hv hne
    | current :: rest =>
      by_cases hv2 : current ∈ st.visited
      · rw [crawlStep_skip fetch domain maxPages st current rest hv hpg hv2]
        exact Or.inl rfl
      · rcases hfc : fetch current with _ | raw
        · rw [crawlStep_fail fetch domain maxPages st current rest hv hpg hv2 hfc]
          exact Or.inr ⟨current, hv2, rfl⟩
        · rw [crawlStep_visit fetch domain maxPages st current rest raw hv hpg hv2 hfc]
          exact Or.inr ⟨current, hv2, rfl⟩
  · rw [crawlStep_of_not_guard fetch domain maxPages st hg]
    exact Or.inl rfl

/-! ### C4 -/

/-- Link graph for the C4 counterexample: page a links b and l, page b
links l again, page l has no links. -/
def fetch4 : String → Option (List String) := fun u =>
  if u = "https://example.org/a" then
    some ["https://example.org/b", "https://example.org/l"]
  else if u = "https://example.org/b" then some ["https://example.org/l"]
  else if u = "https://example.org/l" then some ([] : List String)
  else none

/-- C4 as stated is false: after three loop iterations of this crawl the
queue still holds l although l is already visited, so queued and visited
are not disjoint. -/
theorem c4_counterexample :
    "https://example.org/l" ∈ (crawlRun fetch4 "https://example.org/a" 10 3).toVisit ∧
    "https://example.org/l" ∈ (crawlRun fetch4 "https://example.org/a" 10 3).visited := by
  decide

/-- C4 amended: after every step of the crawl loop, a URL enters all_links
at most once and visited holds no duplicates; visited only grows (each
step extends it).  The queue, however, may contain already-visited URLs
(they are discarded at pop time without a fetch, witness the final
disjunct: the fetch log grows only with URLs unvisited at fetch time). -/
theorem c4_frontier_invariants (fetch : String → Option (List String))
    (base : String) (maxPages n : Nat) :
    (crawlRun fetch base maxPages n).allLinks.Nodup ∧
    (crawlRun fetch base maxPages n).visited.Nodup ∧
    (crawlRun fetch base maxPages n).visited <+:
      (crawlRun fetch base maxPages (n + 1)).visited ∧
    ((crawlRun fetch base maxPages (n + 1)).fetchLog =
        (crawlRun fetch base maxPages n).fetchLog ∨
      ∃ u, u ∉ (crawlRun fetch base maxPages n).visited ∧
        (crawlRun fetch base maxPages (n + 1)).fetchLog =
          (crawlRun fetch base maxPages n).fetchLog ++ [u]) :=
  ⟨(crawlRun_nodup fetch base maxPages n).2, (crawlRun_nodup fetch base maxPages n).1,
   visited_sprefix_step fetch (urlNetloc base) maxPages _,
   fetchLog_step fetch (urlNetloc base) maxPages _⟩

/-! ### C1 -/

/-- Link graph for the C1/C5 counterexamples: page a links b and f, page b
links f again, fetching f always fails. -/
def fetchC1 : String → Option (List String) := fun u =>
  if u = "https://example.org/a" then
    some ["https://example.org/b", "https://example.org/f"]
  else if u = "https://example.org/b" then some ["https://example.org/f"]
  else none

/-- C1 as stated is false: f is already discovered (in all_links) after the
first iteration, yet the second iteration enqueues it again (the gate
checks visited, not all_links), and since both fetches of f fail, f is
fetched twice over the run. -/
theorem c1_counterexample :
    "https://example.org/f" ∈ (crawlRun fetchC1 "https://example.org/a" 10 1).allLinks ∧
    (crawlRun fetchC1 "https://example.org/a" 10 2).toVisit =
      ["https://example.org/f", "https://example.org/f"] ∧
    List.count "https://example.org/f"
      (crawlRun fetchC1 "https://example.org/a" 10 4).fetchLog = 2 := by
  decide

/-- C1 amended: in every reachable state a URL appears in all_links
(discovered) at most once and in visited at most once; since the crawl
marks a URL visited exactly when its fetch succeeds, a URL is successfully
fetched at most once.  The dedupe gate is the visited set (checked at
enqueue and again at pop), not the discovered set, and a URL whose fetch
fails may be fetched again when re-enqueued. -/
theorem c1_dedupe_gate (fetch : String → Option (List String))
    (base : String) (maxPages n : Nat) (u : String) :
    List.count u (crawlRun fetch base maxPages n).allLinks ≤ 1 ∧
    List.count u (crawlRun fetch base maxPages n).visited ≤ 1 := by
  obtain ⟨hv, ha⟩ := crawlRun_nodup fetch base maxPages n
  exact ⟨List.nodup_iff_count_le_one.mp ha u, List.nodup_iff_count_le_one.mp hv u⟩

/-! ### C5 -/

/-- C5 as stated is false: after three iterations f is recorded as failed
but is not in visited, and the fourth iteration fetches it again. -/
theorem c5_counterexample :
    "https://example.org/f" ∈ (crawlRun fetchC1 "https://example.org/a" 10 3).failed ∧
    "https://example.org/f" ∉ (crawlRun fetchC1 "https://example.org/a" 10 3).visited ∧
    List.count "https://example.org/f"
      (crawlRun fetchC1 "https://example.org/a" 10 4).fetchLog = 2 := by
  decide

/-- C5 amended: when the fetch of the current URL fails, the URL is
appended to failed and the crawl moves on to the next queued URL, but the
URL is NOT marked visited (visited and pages_crawled are unchanged), so it
is not protected against a later re-fetch. -/
theorem c5_failed_fetch_behaviour (fetch : String → Option (List String))
    (domain : String) (maxPages : Nat) (st : CrawlState) (current : String)
    (rest : List String) (hv : st.toVisit = current :: rest)
    (hpg : st.pagesCrawled < maxPages) (hvis : current ∉ st.visited)
    (hf : fetch current = none) :
    (crawlStep fetch domain maxPages st).failed = st.failed ++ [current] ∧
    (crawlStep fetch domain maxPages st).visited = st.visited ∧
    (crawlStep fetch domain maxPages st).pagesCrawled = st.pagesCrawled ∧
    (crawlStep fetch domain maxPages st).toVisit = rest ∧
    (crawlStep fetch domain maxPages st).fetchLog = st.fetchLog ++ [current] := by
  rw [crawlStep_fail fetch domain maxPages st current rest hv hpg hvis hf]
  exact ⟨rfl, rfl, rfl, rfl, rfl⟩

theorem c5_witness :
    ((crawlRun fetchC1 "https://example.org/a" 10 2).toVisit =
        "https://example.org/f" :: ["https://example.org/f"] ∧
      (crawlRun fetchC1 "https://example.org/a" 10 2).pagesCrawled < 10 ∧
      "https://example.org/f" ∉ (crawlRun fetchC1 "https://example.org/a" 10 2).visited ∧
      fetchC1 "https://example.org/f" = none) ∧
    ((crawlStep fetchC1 (urlNetloc "https://example.org/a") 10
        (crawlRun fetchC1 "https://example.org/a" 10 2)).failed =
      (crawlRun fetchC1 "https://example.org/a" 10 2).failed ++ ["https://example.org/f"] ∧
    (crawlStep fetchC1 (urlNetloc "https://example.org/a") 10
        (crawlRun fetchC1 "https://example.org/a" 10 2)).visited =
      (crawlRun fetchC1 "https://example.org/a" 10 2).visited ∧
    (crawlStep fetchC1 (urlNetloc "https://example.org/a") 10
        (crawlRun fetchC1 "https://example.org/a" 10 2)).pagesCrawled =
      (crawlRun fetchC1 "https://example.org/a" 10 2).pagesCrawled ∧
    (crawlStep fetchC1 (urlNetloc "https://example.org/a") 10
        (crawlRun fetchC1 "https://example.org/a" 10 2)).toVisit =
      ["https://example.org/f"] ∧
    (crawlStep fetchC1 (urlNetloc "https://example.org/a") 10
        (crawlRun fetchC1 "https://example.org/a" 10 2)).fetchLog =
      (crawlRun fetchC1 "https://example.org/a" 10 2).fetchLog ++
        ["https://example.org/f"]) :=
  ⟨⟨by decide, by decide, by decide, by decide⟩,
   c5_failed_fetch_behaviour fetchC1 (urlNetloc "https://example.org/a") 10
     (crawlRun fetchC1 "https://example.org/a" 10 2) "https://example.org/f"
     ["https://example.org/f"] (by decide) (by decide) (by decide) (by decide)⟩

/-! ### C7: termination of the crawl loop -/

/-- The in-domain links a page contributes (nothing when its fetch fails). -/
def linksOf (fetch : String → Option (List String)) (domain : String)
    (u : String) : List String :=
  extract_links domain ((fetch u).getD [])

/-- Total of f over the members of U not yet visited. -/
def unvisitedSum (f : String → Nat) (U v : List String) : Nat :=
  ((U.filter (fun u => decide (u ∉ v))).map f).sum

theorem unvisitedSum_antitone (f : String → Nat) (U : List String) :
    ∀ {v w : List String}, (∀ x ∈ v, x ∈ w) →
    unvisitedSum f U w ≤ unvisitedSum f U v := by
  induction U with
  | nil => intro v w _; simp [unvisitedSum]
  | cons u U ih =>
    intro v w hvw
    by_cases hw : u ∈ w <;> by_cases hv : u ∈ v
    · simpa [unvisitedSum, List.filter_cons, hw, hv] using ih hvw
    · have h1 : unvisitedSum f (u :: U) w = unvisitedSum f U w := by
        simp [unvisitedSum, List.filter_cons, hw]
      have h2 : unvisitedSum f (u :: U) v = f u + unvisitedSum f U v := by
        simp [unvisitedSum, List.filter_cons, hv]
      rw [h1, h2]
      exact le_trans (ih hvw) (Nat.le_add_left _ _)
    · exact absurd (hvw u hv) hw
    · have h1 : unvisitedSum f (u :: U) w = f u + unvisitedSum f U w := by
        simp [unvisitedSum, List.filter_cons, hw]
      have h2 : unvisitedSum f (u :: U) v = f u + unvisitedSum f U v := by
        simp [unvisitedSum, List.filter_cons, hv]
      rw [h1, h2]
      exact Nat.add_le_add_left (ih hvw) _

theorem unvisitedSum_remove (f : String → Nat) {U v : List String} {c : String}
    (hc : c ∈ U) (hcv : c ∉ v) :
    f c + unvisitedSum f U (v ++ [c]) ≤ unvisitedSum f U v := by
  induction U with
  | nil => simp at hc
  | cons u U ih =>
    by_cases huc : u = c
    · subst huc
      have h1 : unvisitedSum f (u :: U) (v ++ [u]) = unvisitedSum f U (v ++ [u]) := by
        simp [unvisitedSum, List.filter_cons]
      have h2 : unvisitedSum f (u :: U) v = f u + unvisitedSum f U v := by
        simp [unvisitedSum, List.filter_cons, hcv]
      rw [h1, h2]
      have := unvisitedSum_antitone f U
        (v := v) (w := v ++ [u]) (fun x hx => by simp [hx])
      omega
    · have hcU : c ∈ U := by
        rcases List.mem_cons.mp hc with h1 | h1
        · exact absurd h1.symm huc
        · exact h1
      by_cases hv : u ∈ v
      · have h1 : unvisitedSum f (u :: U) (v ++ [c]) = unvisitedSum f U (v ++ [c]) := by
          simp [unvisitedSum, List.filter_cons, hv]
        have h2 : unvisitedSum f (u :: U) v = unvisitedSum f U v := by
          simp [unvisitedSum, List.filter_cons, hv]
        rw [h1, h2]
        exact ih hcU
      · have hu2 : u ∉ v ++ [c] := by
          simp [hv, huc]
        have h1 : unvisitedSum f (u :: U) (v ++ [c]) =
            f u + unvisitedSum f U (v ++ [c]) := by
          simp [unvisitedSum, List.filter_cons, hv, huc]
        have h2 : unvisitedSum f (u :: U) v = f u + unvisitedSum f U v := by
          simp [unvisitedSum, List.filter_cons, hv]
        rw [h1, h2]
        have := ih hcU
        omega

/-- Termination measure for the crawl loop over a closed finite universe U:
queue length plus the total outgoing-link count of the unvisited part of U. -/
def crawlMeasure (fetch : String → Option (List String)) (domain : String)
    (U : List String) (st : CrawlState) : Nat :=
  st.toVisit.length +
    unvisitedSum (fun u => (linksOf fetch domain u).length) U st.visited

theorem crawlMeasure_decreases (fetch : String → Option (List String))
    (domain : String) (maxPages : Nat) (U : List String) (st : CrawlState)
    (hsub : ∀ u ∈ st.toVisit, u ∈ U) (hg : guard maxPages st) :
    crawlMeasure fetch domain U (crawlStep fetch domain maxPages st) <
      crawlMeasure fetch domain U st := by
  obtain ⟨hne, hpg⟩ := hg
  match hv : st.toVisit with
  | [] => exact absurd hv hne
  | current :: rest =>
    have hcU : current ∈ U := hsub current (by simp [hv])
    by_cases hv2 : current ∈ st.visited
    · rw [crawlStep_skip fetch domain maxPages st current rest hv hpg hv2]
      unfold crawlMeasure
      simp [hv]
    · rcases hfc : fetch current with _ | raw
      · rw [crawlStep_fail fetch domain maxPages st current rest hv hpg hv2 hfc]
        unfold crawlMeasure
        simp [hv]
      · rw [crawlStep_visit fetch domain maxPages st current rest raw hv hpg hv2 hfc]
        unfold crawlMeasure
        have hrem : (linksOf fetch domain current).length +
            unvisitedSum (fun u => (linksOf fetch domain u).length) U
              (st.visited ++ [current]) ≤
            unvisitedSum (fun u => (linksOf fetch domain u).length) U st.visited :=
          unvisitedSum_remove (fun u => (linksOf fetch domain u).length) hcU hv2
        have hlinks : linksOf fetch domain current = extract_links domain raw := by
          simp [linksOf, hfc]
        have hfil : ((extract_links domain raw).filter
            (fun l => decide (l ∉ st.visited ++ [current]))).length ≤
            (linksOf fetch domain current).length := by
          rw [hlinks]
          exact List.length_filter_le _ _
        simp only [hv, List.length_append, List.length_cons]
        omega

theorem crawlRun_toVisit_subset (fetch : String → Option (List String))
    (base : String) (maxPages : Nat) (U : List String) (hbase : base ∈ U)
    (hclosed : ∀ u ∈ U, ∀ v ∈ linksOf fetch (urlNetloc base) u, v ∈ U) :
    ∀ n, ∀ u ∈ (crawlRun fetch base maxPages n).toVisit, u ∈ U := by
  intro n
  induction n with
  | zero =>
      intro u hu
      simp [crawlRun, initState] at hu
      simpa [hu] using hbase
  | succ n ih =>
    show ∀ u ∈ (crawlStep fetch (urlNetloc base) maxPages
        (crawlRun fetch base maxPages n)).toVisit, u ∈ U
    set st := crawlRun fetch base maxPages n with hst
    by_cases hg : guard maxPages st
    · obtain ⟨hne, hpg⟩ := hg
      match hv : st.toVisit with
      | [] => exact absurd hv hne
      | current :: rest =>
        have hrest : ∀ u ∈ rest, u ∈ U := fun u hu => ih u (by simp [hv, hu])
        have hcU : current ∈ U := ih current (by simp [hv])
        by_cases hv2 : current ∈ st.visited
        · rw [crawlStep_skip fetch _ maxPages st current rest hv hpg hv2]
          exact hrest
        · rcases hfc : fetch current with _ | raw
          · rw [crawlStep_fail fetch _ maxPages st current rest hv hpg hv2 hfc]
            exact hrest
          · rw [crawlStep_visit fetch _ maxPages st current rest raw hv hpg hv2 hfc]
            intro u hu
            rcases List.mem_append.mp hu with h1 | h1
            · exact hrest u h1
            · have h2 : u ∈ extract_links (urlNetloc base) raw :=
                List.mem_of_mem_filter h1
              have h3 : u ∈ linksOf fetch (urlNetloc base) current := by
                rw [linksOf, hfc]
                exact h2
              exact hclosed current hcU u h3
    · rw [crawlStep_of_not_guard fetch _ maxPages st hg]
      exact ih

theorem crawlRun_stable (fetch : String → Option (List String)) (base : String)
    (maxPages n : Nat) (h : ¬ guard maxPages (crawlRun fetch base maxPages n)) :
    ∀ j, crawlRun fetch base maxPages (n + j) = crawlRun fetch base maxPages n := by
  intro j
  induction j with
  | zero => rfl
  | succ j ih =>
    show crawlStep fetch (urlNetloc base) maxPages
        (crawlRun fetch base maxPages (n + j)) = _
    rw [ih]
    exact crawlStep_of_not_guard fetch _ maxPages _ h

theorem crawlRun_halts_of_measure (fetch : String → Option (List String))
    (base : String) (maxPages : Nat) (U : List String) (hbase : base ∈ U)
    (hclosed : ∀ u ∈ U, ∀ v ∈ linksOf fetch (urlNetloc base) u, v ∈ U) :
    ∀ k n, crawlMeasure fetch (urlNetloc base) U (crawlRun fetch base maxPages n) ≤ k →
      ¬ guard maxPages (crawlRun fetch base maxPages (n + k)) := by
  intro k
  induction k with
  | zero =>
      intro n hm hg
      rw [Nat.add_zero] at hg
      obtain ⟨hne, _⟩ := hg
      unfold crawlMeasure at hm
      have hlen : (crawlRun fetch base maxPages n).toVisit.length = 0 := by omega
      exact hne (List.length_eq_zero.mp hlen)
  | succ k ih =>
    intro n hm
    by_cases hg : guard maxPages (crawlRun fetch base maxPages n)
    · have hdec := crawlMeasure_decreases fetch (urlNetloc base) maxPages U
        (crawlRun fetch base maxPages n)
        (crawlRun_toVisit_subset fetch base maxPages U hbase hclosed n) hg
      have hstep : crawlMeasure fetch (urlNetloc base) U
          (crawlRun fetch base maxPages (n + 1)) ≤ k := by
        have : crawlRun fetch base maxPages (n + 1) =
            crawlStep fetch (urlNetloc base) maxPages
              (crawlRun fetch base maxPages n) := rfl
        rw [this]
        omega
      have := ih (n + 1) hstep
      have harith : n + 1 + k = n + (k + 1) := by omega
      rwa [harith] at this
    · have := crawlRun_stable fetch base maxPages n hg (k + 1)
      rw [this]
      exact hg

theorem crawlRun_pages (fetch : String → Option (List String)) (base : String)
    (maxPages : Nat) : ∀ n,
    (crawlRun fetch base maxPages n).pagesCrawled =
      (crawlRun fetch base maxPages n).visited.length ∧
    (crawlRun fetch base maxPages n).pagesCrawled ≤ maxPages := by
  intro n
  induction n with
  | zero => simp [crawlRun, initState]
  | succ n ih =>
    obtain ⟨ih1, ih2⟩ := ih
    show (crawlStep fetch (urlNetloc base) maxPages
          (crawlRun fetch base maxPages n)).pagesCrawled =
        (crawlStep fetch (urlNetloc base) maxPages
          (crawlRun fetch base maxPages n)).visited.length ∧
      (crawlStep fetch (urlNetloc base) maxPages
          (crawlRun fetch base maxPages n)).pagesCrawled ≤ maxPages
    set st := crawlRun fetch base maxPages n with hst
    by_cases hg : guard maxPages st
    · obtain ⟨hne, hpg⟩ := hg
      match hv : st.toVisit with
      | [] => exact absurd hv hne
      | current :: rest =>
        by_cases hv2 : current ∈ st.visited
        · rw [crawlStep_skip fetch _ maxPages st current rest hv hpg hv2]
          exact ⟨ih1, ih2⟩
        · rcases hfc : fetch current with _ | raw
          · rw [crawlStep_fail fetch _ maxPages st current rest hv hpg hv2 hfc]
            exact ⟨ih1, ih2⟩
          · rw [crawlStep_visit fetch _ maxPages st current rest raw hv hpg hv2 hfc]
            constructor
            · simp [List.length_append, ih1]
            · simpa using hpg
    · rw [crawlStep_of_not_guard fetch _ maxPages st hg]
      exact ⟨ih1, ih2⟩

/-- C7: over a finite link graph (a finite universe U containing the seed
and closed under in-domain links) the crawl loop terminates: after some
number of iterations the loop guard fails — the queue is empty or the page
budget is reached — and the state never changes again; moreover at most
max_pages pages are ever visited, and whenever the guard fails the loop
stops (the next iteration changes nothing), so the crawl stops exactly
when the queue empties or the budget is reached, whichever happens
first. -/
theorem c7_crawl_terminates (fetch : String → Option (List String))
    (base : String) (maxPages : Nat) (U : List String) (hbase : base ∈ U)
    (hclosed : ∀ u ∈ U, ∀ v ∈ linksOf fetch (urlNetloc base) u, v ∈ U) :
    (∃ n, ((crawlRun fetch base maxPages n).toVisit = [] ∨
        maxPages ≤ (crawlRun fetch base maxPages n).pagesCrawled) ∧
      ∀ j, crawlRun fetch base maxPages (n + j) = crawlRun fetch base maxPages n) ∧
    (∀ m, (crawlRun fetch base maxPages m).visited.length ≤ maxPages) ∧
    (∀ m, ((crawlRun fetch base maxPages m).toVisit = [] ∨
        maxPages ≤ (crawlRun fetch base maxPages m).pagesCrawled) →
      crawlRun fetch base maxPages (m + 1) = crawlRun fetch base maxPages m) := by
  have hnguard : ∀ m, ((crawlRun fetch base maxPages m).toVisit = [] ∨
      maxPages ≤ (crawlRun fetch base maxPages m).pagesCrawled) ↔
      ¬ guard maxPages (crawlRun fetch base maxPages m) := by
    intro m
    unfold guard
    constructor
    · rintro (h | h) ⟨h1, h2⟩
      · exact h1 h
      · omega
    · intro h
      by_cases h1 : (crawlRun fetch base maxPages m).toVisit = []
      · exact Or.inl h1
      · right
        by_contra h2
        exact h ⟨h1, by omega⟩
  refine ⟨?_, ?_, ?_⟩
  · refine ⟨crawlMeasure fetch (urlNetloc base) U (initState base), ?_, ?_⟩
    · rw [hnguard]
      have := crawlRun_halts_of_measure fetch base maxPages U hbase hclosed
        (crawlMeasure fetch (urlNetloc base) U (initState base)) 0 (le_refl _)
      simpa using this
    · intro j
      have h0 := crawlRun_halts_of_measure fetch base maxPages U hbase hclosed
        (crawlMeasure fetch (urlNetloc base) U (initState base)) 0 (le_refl _)
      have h0b : ¬ guard maxPages (crawlRun fetch base maxPages
          (crawlMeasure fetch (urlNetloc base) U (initState base))) := by
        simpa using h0
      exact crawlRun_stable fetch base maxPages _ h0b j
  · intro m
    obtain ⟨h1, h2⟩ := crawlRun_pages fetch base maxPages m
    omega
  · intro m hm
    rw [hnguard] at hm
    exact crawlRun_stable fetch base maxPages m hm 1

theorem c7_witness :
    ("https://example.org/a" ∈
        ["https://example.org/a", "https://example.org/b", "https://example.org/l"] ∧
      (∀ u ∈ ["https://example.org/a", "https://example.org/b", "https://example.org/l"],
        ∀ v ∈ linksOf fetch4 (urlNetloc "https://example.org/a") u,
          v ∈ ["https://example.org/a", "https://example.org/b", "https://example.org/l"])) ∧
    ((∃ n, ((crawlRun fetch4 "https://example.org/a" 10 n).toVisit = [] ∨
        10 ≤ (crawlRun fetch4 "https://example.org/a" 10 n).pagesCrawled) ∧
      ∀ j, crawlRun fetch4 "https://example.org/a" 10 (n + j) =
        crawlRun fetch4 "https://example.org/a" 10 n) ∧
    (∀ m, (crawlRun fetch4 "https://example.org/a" 10 m).visited.length ≤ 10) ∧
    (∀ m, ((crawlRun fetch4 "https://example.org/a" 10 m).toVisit = [] ∨
        10 ≤ (crawlRun fetch4 "https://example.org/a" 10 m).pagesCrawled) →
      crawlRun fetch4 "https://example.org/a" 10 (m + 1) =
        crawlRun fetch4 "https://example.org/a" 10 m)) :=
  ⟨⟨by decide, by decide⟩,
   c7_crawl_terminates fetch4 "https://example.org/a" 10
     ["https://example.org/a", "https://example.org/b", "https://example.org/l"]
     (by decide) (by decide)⟩

end Crawler

/-! ## Python str.strip -/

def stripChars (l : List Char) : List Char :=
  ((l.dropWhile Char.isWhitespace).reverse.dropWhile Char.isWhitespace).reverse

theorem dropWhile_idem {α} (p : α → Bool) (l : List α) :
    (l.dropWhile p).dropWhile p = l.dropWhile p := by
  induction l with
  | nil => rfl
  | cons x xs ih =>
    by_cases h : p x = true
    · simp [List.dropWhile_cons, h, ih]
    · simp only [Bool.not_eq_true] at h
      simp [List.dropWhile_cons, h]

theorem dropWhile_head_false {α} (p : α → Bool) (l : List α)
    (h : l.dropWhile p = l) : l = [] ∨ ∃ x xs, l = x :: xs ∧ p x = false := by
  match l with
  | [] => exact Or.inl rfl
  | x :: xs =>
    right
    refine ⟨x, xs, rfl, ?_⟩
    by_contra hx
    simp only [Bool.not_eq_false] at hx
    rw [List.dropWhile_cons, if_pos hx] at h
    have := congrArg List.length h
    have hle : (xs.dropWhile p).length ≤ xs.length :=
      (List.dropWhile_sublist p).length_le
    simp at this
    omega

theorem dropWhile_reverse_dropWhile {α} (p : α → Bool) (l : List α)
    (h : l.dropWhile p = l) :
    ((l.reverse.dropWhile p).reverse).dropWhile p = (l.reverse.dropWhile p).reverse := by
  rcases dropWhile_head_false p l h with rfl | ⟨x, xs, rfl, hx⟩
  · rfl
  · rw [List.reverse_cons, List.dropWhile_append]
    split
    · next hemp =>
        simp [List.dropWhile_cons, hx]
    · next hemp =>
        rw [List.reverse_append]
        simp only [List.reverse_cons, List.reverse_nil, List.nil_append,
          List.cons_append, List.singleton_append]
        rw [List.dropWhile_cons, if_neg (by simp [hx])]

theorem stripChars_idem (l : List Char) : stripChars (stripChars l) = stripChars l := by
  unfold stripChars
  have h1 : ((l.dropWhile Char.isWhitespace).reverse.dropWhile
      Char.isWhitespace).reverse.dropWhile Char.isWhitespace =
      ((l.dropWhile Char.isWhitespace).reverse.dropWhile Char.isWhitespace).reverse :=
    dropWhile_reverse_dropWhile Char.isWhitespace _
      (dropWhile_idem Char.isWhitespace l)
  rw [h1, List.reverse_reverse, dropWhile_idem]

/-- Python str.strip(): remove leading and trailing whitespace. -/
def pyStrip (s : String) : String :=
  ⟨stripChars s.data⟩

theorem pyStrip_idem (s : String) : pyStrip (pyStrip s) = pyStrip s :=
  congrArg String.mk (stripChars_idem s.data)

/-- Character-list prefix check, used for the Python startswith and split
operations (these must evaluate inside the kernel). -/
def listPrefix : List Char → List Char → Bool
  | [], _ => true
  | _ :: _, [] => false
  | a :: as, b :: bs => a == b && listPrefix as bs

/-- Python str.startswith. -/
def pyStartsWith (s pre : String) : Bool :=
  listPrefix pre.data s.data

/-- Python str.lower (ASCII model, matching lowerChar). -/
def pyLower (s : String) : String :=
  ⟨s.data.map lowerChar⟩

/-- Maximal runs of characters satisfying p (Python str.split and
friends). -/
def tokensBy (p : Char → Bool) : List Char → List Char → List (List Char)
  | [], cur => if cur.isEmpty then [] else [cur.reverse]
  | c :: cs, cur =>
    if p c then tokensBy p cs (c :: cur)
    else if cur.isEmpty then tokensBy p cs []
    else cur.reverse :: tokensBy p cs []


/-! ## indexer.py WebIndexerBot

The output file is modelled by the list of the url fields of its records
(the only field resume consults); process_url is modelled by the oracle
procOk, true when the URL yields a result dict (extraction succeeded),
false when it returns None or raises.  The checkpoint file written by
save_progress_checkpoint is modelled by checkpointAfter. -/

namespace Indexer

/-- WebIndexerBot.load_existing_results: the set of result['url'].strip()
of the records in the output file. -/
def loadIndexed (output : List String) : List String :=
  output.map pyStrip

/-- WebIndexerBot.find_last_indexed_position: last CSV index whose stripped
url is in indexed_urls, -1 when none. -/
def find_last_indexed_position (urls indexed : List String) : Int :=
  urls.enum.foldl
    (fun acc p => if pyStrip p.2 ∈ indexed then (p.1 : Int) else acc) (-1)

/-- The remaining_urls list built in process_csv_file: rows after the last
indexed position, non-empty and not already indexed, stripped, capped at
max_links. -/
def remainingUrls (urls indexed : List String) (maxLinks : Nat) : List String :=
  (((urls.drop ((find_last_indexed_position urls indexed + 1).toNat)).filter
      (fun u => decide (u ≠ "" ∧ pyStrip u ∉ indexed))).map pyStrip).take maxLinks

/-- The urls indexed by one completed run of process_csv_file (each
remaining url whose process_url succeeds contributes one record, in
order). -/
def sessionRecords (procOk : String → Bool) (urls output : List String)
    (maxLinks : Nat) : List String :=
  (remainingUrls urls (loadIndexed output) maxLinks).filter procOk

/-- The output file written by save_to_json at the end of a completed run:
existing records plus the new ones. -/
def sessionOutput (procOk : String → Bool) (urls output : List String)
    (maxLinks : Nat) : List String :=
  output ++ sessionRecords procOk urls output maxLinks

/-- range(0, len(tasks), batch_size) slicing. -/
def chunksGo (bs : Nat) : Nat → List String → List (List String)
  | 0, _ => []
  | _, [] => []
  | fuel + 1, x :: xs => (x :: xs).take bs :: chunksGo bs fuel ((x :: xs).drop bs)

/-- The batches of process_csv_file: batch_size = min(10, len(tasks)). -/
def batches (tasks : List String) : List (List String) :=
  chunksGo (min 10 tasks.length) tasks.length tasks

/-- Records produced by the first k batches of a session (the session is
interrupted after them). -/
def recordsUpTo (procOk : String → Bool) (urls output : List String)
    (maxLinks k : Nat) : List String :=
  (((batches (remainingUrls urls (loadIndexed output) maxLinks)).take k).join).filter
    procOk

/-- Content of the checkpoint file after the first k batches: the full
accumulated result set, existing records first. -/
def checkpointAfter (procOk : String → Bool) (urls output : List String)
    (maxLinks k : Nat) : List String :=
  output ++ recordsUpTo procOk urls output maxLinks k

/-- Output files across repeated completed sessions (all fetches
succeeding), starting from no output file. -/
def sessionsIter (urls : List String) (maxLinks : Nat) : Nat → List String
  | 0 => []
  | k + 1 => sessionOutput (fun _ => true) urls (sessionsIter urls maxLinks k) maxLinks

theorem remainingUrls_sublist (urls indexed : List String) (maxLinks : Nat) :
    (remainingUrls urls indexed maxLinks).Sublist (urls.map pyStrip) := by
  unfold remainingUrls
  refine (List.take_sublist _ _).trans ?_
  refine (List.Sublist.map pyStrip ?_)
  exact (List.filter_sublist _).trans (List.drop_sublist _ _)

theorem mem_remainingUrls_not_indexed {urls indexed : List String}
    {maxLinks : Nat} {r : String} (h : r ∈ remainingUrls urls indexed maxLinks) :
    r ∉ indexed ∧ pyStrip r = r := by
  unfold remainingUrls at h
  have h2 := (List.take_sublist _ _).mem h
  rcases List.mem_map.mp h2 with ⟨u, hu, rfl⟩
  have := (List.mem_filter.mp hu).2
  simp only [decide_eq_true_eq] at this
  exact ⟨by
    intro hmem
    exact this.2 (by simpa [pyStrip_idem] using hmem), pyStrip_idem u⟩

theorem mem_sessionRecords {procOk : String → Bool} {urls output : List String}
    {maxLinks : Nat} {r : String}
    (h : r ∈ sessionRecords procOk urls output maxLinks) :
    r ∉ loadIndexed output ∧ pyStrip r = r :=
  mem_remainingUrls_not_indexed ((List.filter_sublist _).mem h)

theorem sessionRecords_sublist (procOk : String → Bool) (urls output : List String)
    (maxLinks : Nat) :
    (sessionRecords procOk urls output maxLinks).Sublist (urls.map pyStrip) :=
  (List.filter_sublist _).trans (remainingUrls_sublist urls _ maxLinks)

end Indexer


namespace Indexer

theorem findLast_lt {urls indexed : List String} {M : Int} (hM : -1 < M)
    (h : ∀ i : Nat, ∀ hi : i < urls.length, pyStrip (urls[i]) ∈ indexed →
      (i : Int) < M) :
    find_last_indexed_position urls indexed < M := by
  unfold find_last_indexed_position
  have hgen : ∀ (l : List (Nat × String)) (acc : Int), acc < M →
      (∀ p ∈ l, pyStrip p.2 ∈ indexed → (p.1 : Int) < M) →
      l.foldl (fun acc p => if pyStrip p.2 ∈ indexed then (p.1 : Int) else acc)
        acc < M := by
    intro l
    induction l with
    | nil => intro acc h1 _; exact h1
    | cons p l ih =>
      intro acc h1 h2
      simp only [List.foldl_cons]
      by_cases hc : pyStrip p.2 ∈ indexed
      · rw [if_pos hc]
        exact ih _ (h2 p (by simp) hc) (fun q hq => h2 q (by simp [hq]))
      · rw [if_neg hc]
        exact ih _ h1 (fun q hq => h2 q (by simp [hq]))
  apply hgen _ _ hM
  intro p hp hmem
  have hget := List.mem_enum_iff_getElem?.mp hp
  obtain ⟨hlt, heq⟩ := List.getElem?_eq_some_iff.mp hget
  exact h p.1 hlt (by rw [heq]; exact hmem)

theorem findLast_lt_of_take {urls : List String} {m : Nat}
    (hnodup : (urls.map pyStrip).Nodup) :
    find_last_indexed_position urls ((urls.map pyStrip).take m) < (m : Int) := by
  apply findLast_lt (by omega)
  intro i hi hmem
  have hi2 : i < (urls.map pyStrip).length := by simpa using hi
  have hTi : (urls.map pyStrip)[i] = pyStrip (urls[i]) := List.getElem_map pyStrip
  rw [← hTi] at hmem
  rcases List.mem_take_iff_getElem.mp hmem with ⟨j, hj, hje⟩
  have hji : j = i := (List.Nodup.getElem_inj_iff hnodup).mp hje
  omega

theorem findLast_lt_length {urls indexed : List String} :
    find_last_indexed_position urls indexed < (urls.length : Int) := by
  apply findLast_lt (by omega)
  intro i hi _
  omega

theorem remainingUrls_of_take {urls : List String} (maxLinks m : Nat)
    (hnodup : (urls.map pyStrip).Nodup) (hne : ∀ u ∈ urls, u ≠ "") :
    remainingUrls urls ((urls.map pyStrip).take m) maxLinks =
      ((urls.map pyStrip).drop m).take maxLinks := by
  unfold remainingUrls
  set T := urls.map pyStrip with hT
  set start := (find_last_indexed_position urls (T.take m) + 1).toNat with hstart
  have hfl := findLast_lt_of_take (m := m) hnodup
  rw [← hT] at hfl
  have hfll := @findLast_lt_length urls (T.take m)
  have hstart_le : start ≤ m := by omega
  have hlen2 : T.length = urls.length := by rw [hT, List.length_map]
  have hstart_len : start ≤ T.length := by omega
  have hfilter : (urls.drop start).filter
      (fun u => decide (u ≠ "" ∧ pyStrip u ∉ T.take m)) =
      (urls.drop start).filter (fun u => decide (pyStrip u ∉ T.take m)) := by
    apply List.filter_congr
    intro u hu
    have hu2 : u ≠ "" := hne u ((List.drop_sublist _ _).mem hu)
    simp [hu2]
  rw [hfilter]
  have hmapfilter : ((urls.drop start).filter
      (fun u => decide (pyStrip u ∉ T.take m))).map pyStrip =
      (T.drop start).filter (fun t => decide (t ∉ T.take m)) := by
    rw [hT, ← List.map_drop]
    exact (List.map_filter
      (p := fun t => decide (t ∉ (List.map pyStrip urls).take m))
      pyStrip (urls.drop start)).symm
  rw [hmapfilter]
  have hsplit : T.drop start = (T.take m).drop start ++ T.drop m := by
    conv_lhs => rw [← List.take_append_drop m T]
    rw [List.drop_append_of_le_length]
    rw [List.length_take]
    omega
  rw [hsplit, List.filter_append]
  have h1 : ((T.take m).drop start).filter (fun t => decide (t ∉ T.take m)) = [] := by
    rw [List.filter_eq_nil_iff]
    intro a ha
    have : a ∈ T.take m := (List.drop_sublist _ _).mem ha
    simp [this]
  have h2 : (T.drop m).filter (fun t => decide (t ∉ T.take m)) = T.drop m := by
    rw [List.filter_eq_self]
    intro a ha
    have hdisj := List.disjoint_take_drop (l := T) hnodup (le_refl m)
    have : a ∉ T.take m := fun hmem => hdisj hmem ha
    simp [this]
  rw [h1, h2, List.nil_append]

theorem strip_fixed_of_mem_map {urls : List String} {t : String}
    (h : t ∈ urls.map pyStrip) : pyStrip t = t := by
  rcases List.mem_map.mp h with ⟨u, _, rfl⟩
  exact pyStrip_idem u

theorem sessionsIter_take (urls : List String) (maxLinks : Nat)
    (hnodup : (urls.map pyStrip).Nodup) (hne : ∀ u ∈ urls, u ≠ "") :
    ∀ k, (sessionsIter urls maxLinks k).map pyStrip =
      (urls.map pyStrip).take (k * maxLinks) := by
  intro k
  induction k with
  | zero => simp [sessionsIter]
  | succ k ih =>
    show (sessionOutput (fun _ => true) urls (sessionsIter urls maxLinks k)
        maxLinks).map pyStrip = _
    unfold sessionOutput sessionRecords
    have hload : loadIndexed (sessionsIter urls maxLinks k) =
        (urls.map pyStrip).take (k * maxLinks) := by
      unfold loadIndexed
      exact ih
    rw [List.map_append, ih, hload,
      remainingUrls_of_take maxLinks (k * maxLinks) hnodup hne,
      List.filter_true]
    have hfix : (((urls.map pyStrip).drop (k * maxLinks)).take maxLinks).map pyStrip =
        ((urls.map pyStrip).drop (k * maxLinks)).take maxLinks := by
      have : ∀ t ∈ ((urls.map pyStrip).drop (k * maxLinks)).take maxLinks,
          pyStrip t = t := by
        intro t ht
        exact strip_fixed_of_mem_map
          (((List.take_sublist _ _).trans (List.drop_sublist _ _)).mem ht)
      calc (((urls.map pyStrip).drop (k * maxLinks)).take maxLinks).map pyStrip
          = (((urls.map pyStrip).drop (k * maxLinks)).take maxLinks).map id :=
            List.map_congr_left this
        _ = _ := List.map_id _
    rw [hfix, ← List.take_add]
    congr 1
    rw [Nat.succ_mul]

theorem sessions_complete (urls : List String) (maxLinks : Nat)
    (hnodup : (urls.map pyStrip).Nodup) (hne : ∀ u ∈ urls, u ≠ "")
    (hml : 1 ≤ maxLinks) :
    (sessionsIter urls maxLinks urls.length).map pyStrip = urls.map pyStrip := by
  rw [sessionsIter_take urls maxLinks hnodup hne]
  apply List.take_of_length_le
  have : urls.length * 1 ≤ urls.length * maxLinks := by
    exact Nat.mul_le_mul_left _ hml
  simpa using this

end Indexer


namespace Indexer

/-- C2 as stated is false: interrupt a session after its first 10-URL
batch has been flushed to the checkpoint file (11 rows, max_links 20, all
fetches succeeding), then restart.  load_existing_results reads only the
main output file, which the interrupted run never wrote, so the restart
re-processes all 11 URLs: url "a", although previously flushed, is indexed
twice across the two sessions. -/
theorem c2_counterexample :
    "a" ∈ checkpointAfter (fun _ => true)
      ["a", "b", "c", "d", "e", "f", "g", "h", "i", "j", "k"] [] 20 1 ∧
    List.count "a"
      (recordsUpTo (fun _ => true)
        ["a", "b", "c", "d", "e", "f", "g", "h", "i", "j", "k"] [] 20 1 ++
       sessionRecords (fun _ => true)
        ["a", "b", "c", "d", "e", "f", "g", "h", "i", "j", "k"] [] 20) = 2 := by
  decide

/-- C2 amended: (i) for a duplicate-free URL list, running process_csv_file
to completion and then running it again over the output file of the first
run indexes no URL twice; (ii) a session never re-indexes a URL already
present in the output file it resumes from; (iii) when every row is
non-empty and every process_url succeeds, repeated completed sessions
eventually index every URL of the list.  However resume reads only the
main output file, never the per-batch checkpoint file, so after a
mid-batch interruption the URLs flushed only to the checkpoint file are
re-indexed by the restart (see the counterexample). -/
theorem c2_resume_behaviour (urls : List String) (procOk : String → Bool)
    (maxLinks : Nat) (hnodup : (urls.map pyStrip).Nodup) :
    (sessionRecords procOk urls [] maxLinks ++
      sessionRecords procOk urls (sessionOutput procOk urls [] maxLinks)
        maxLinks).Nodup ∧
    (∀ output r, r ∈ sessionRecords procOk urls output maxLinks →
      r ∉ loadIndexed output) ∧
    ((∀ u ∈ urls, u ≠ "") → 1 ≤ maxLinks →
      (sessionsIter urls maxLinks urls.length).map pyStrip = urls.map pyStrip) := by
  refine ⟨?_, ?_, ?_⟩
  · rw [List.nodup_append]
    refine ⟨(sessionRecords_sublist _ _ _ _).nodup hnodup,
      (sessionRecords_sublist _ _ _ _).nodup hnodup, ?_⟩
    intro a ha1 ha2
    obtain ⟨hnot, _⟩ := mem_sessionRecords ha2
    apply hnot
    show a ∈ (sessionOutput procOk urls [] maxLinks).map pyStrip
    unfold sessionOutput
    rw [List.nil_append]
    obtain ⟨_, hfix⟩ := mem_sessionRecords ha1
    exact List.mem_map.mpr ⟨a, ha1, hfix⟩
  · intro output r hr
    exact (mem_sessionRecords hr).1
  · intro hne hml
    exact sessions_complete urls maxLinks hnodup hne hml

theorem c2_witness :
    (["https://e.org/a", "https://e.org/b", "https://e.org/c"].map pyStrip).Nodup ∧
    ((sessionRecords (fun _ => true)
        ["https://e.org/a", "https://e.org/b", "https://e.org/c"] [] 2 ++
      sessionRecords (fun _ => true)
        ["https://e.org/a", "https://e.org/b", "https://e.org/c"]
        (sessionOutput (fun _ => true)
          ["https://e.org/a", "https://e.org/b", "https://e.org/c"] [] 2) 2).Nodup ∧
    (∀ output r, r ∈ sessionRecords (fun _ => true)
        ["https://e.org/a", "https://e.org/b", "https://e.org/c"] output 2 →
      r ∉ loadIndexed output) ∧
    ((∀ u ∈ ["https://e.org/a", "https://e.org/b", "https://e.org/c"], u ≠ "") →
      1 ≤ 2 →
      (sessionsIter ["https://e.org/a", "https://e.org/b", "https://e.org/c"] 2
        ["https://e.org/a", "https://e.org/b", "https://e.org/c"].length).map pyStrip =
        ["https://e.org/a", "https://e.org/b", "https://e.org/c"].map pyStrip)) :=
  ⟨by decide,
   c2_resume_behaviour ["https://e.org/a", "https://e.org/b", "https://e.org/c"]
     (fun _ => true) 2 (by decide)⟩

end Indexer

namespace Indexer

/-! ## indexer.py analyze_with_groq / process_url

The Groq API call and the JSON extraction (re.search plus json.loads) are
external effects, modelled by oracles: GroqReply is the outcome of the
chat.completions.create call, JsonExtract the outcome of extracting a JSON
object from the reply text. -/

structure Analysis where
  keywords : List String
  description : String
  relevance_score : ℚ
  content_type : String
  main_topics : List String
  language : String
  sentiment : String
  target_audience : String
  content_quality : String
  deriving Repr, DecidableEq

/-- Fallback of analyze_with_groq when no JSON object is found in the
reply. -/
def noJsonFallback : Analysis :=
  ⟨[], "Contenuto non analizzabile", 1 / 10, "other", [], "unknown", "neutral",
    "general", "low"⟩

/-- Fallback of analyze_with_groq when the API call (or json.loads)
raises. -/
def errorFallback : Analysis :=
  ⟨[], "Errore nell'analisi", 0, "other", [], "unknown", "neutral", "general",
    "low"⟩

inductive GroqReply where
  | ok (text : String)
  | exn
  deriving Repr, DecidableEq

inductive JsonExtract where
  | found (a : Analysis)
  | noMatch
  | parseError
  deriving Repr, DecidableEq

/-- WebIndexerBot.analyze_with_groq: returns the parsed analysis, the
no-JSON fallback when the regex finds no JSON object, and the error
fallback when the API call or json.loads raises (caught by the generic
except). -/
def analyze_with_groq (jx : String → JsonExtract) (reply : GroqReply) : Analysis :=
  match reply with
  | .exn => errorFallback
  | .ok text =>
    match jx text with
    | .found a => a
    | .noMatch => noJsonFallback
    | .parseError => errorFallback

structure ContentData where
  url : String
  title : String
  markdown_content : String
  internal_links : List (String × String)
  deriving Repr, DecidableEq

structure IndexRecord where
  url : String
  title : String
  keywords : List String
  description : String
  relevance_score : ℚ
  content_type : String
  main_topics : List String
  language : String
  sentiment : String
  target_audience : String
  content_quality : String
  internal_links : List (String × String)
  word_count : Nat
  deriving Repr, DecidableEq

/-- len(s.split()): number of maximal non-whitespace runs. -/
def pyWordCount (s : String) : Nat :=
  (tokensBy (fun c => !c.isWhitespace) s.data []).length

/-- WebIndexerBot.process_url: none when extract_clean_content returned
None, otherwise exactly one record combining the content data with the
analysis (degraded or not). -/
def process_url (jx : String → JsonExtract) (extract : Option ContentData)
    (reply : GroqReply) : Option IndexRecord :=
  match extract with
  | none => none
  | some cd =>
    let analysis := analyze_with_groq jx reply
    some
      { url := cd.url
        title := cd.title
        keywords := analysis.keywords
        description := analysis.description
        relevance_score := analysis.relevance_score
        content_type := analysis.content_type
        main_topics := analysis.main_topics
        language := analysis.language
        sentiment := analysis.sentiment
        target_audience := analysis.target_audience
        content_quality := analysis.content_quality
        internal_links := cd.internal_links
        word_count :=
          if cd.markdown_content = "" then 0 else pyWordCount cd.markdown_content }

end Indexer

namespace IndexerCrawler

/-! ## indexer_crawler.py AIWebsiteIndexer analysis fallback -/

structure IcContent where
  title : String
  description : String
  main_content : String
  links : List (String × String)
  deriving Repr, DecidableEq

/-- The JSON payload the model is asked for (url, title, description,
keywords, valuable_content, content_type, main_topics, target_audience). -/
structure IcJson where
  url : String
  title : String
  description : String
  keywords : List String
  valuable_content : List String
  content_type : String
  main_topics : List String
  target_audience : String
  deriving Repr, DecidableEq

structure IcResult where
  url : String
  title : String
  description : String
  keywords : List String
  valuable_content : List String
  content_type : String
  main_topics : List String
  target_audience : String
  content_length : Nat
  has_meta_description : Bool
  internal_links_count : Nat
  error : Option String
  deriving Repr, DecidableEq

def isWordChar (c : Char) : Bool :=
  c.isAlphanum || c == '_'

/-- re.findall(r'\x5cb\x5cw+\x5cb', text): maximal runs of word
characters. -/
def splitWordsAux : List Char → List Char → List (List Char)
  | [], cur => if cur.isEmpty then [] else [cur.reverse]
  | c :: cs, cur =>
    if isWordChar c then splitWordsAux cs (c :: cur)
    else if cur.isEmpty then splitWordsAux cs []
    else cur.reverse :: splitWordsAux cs []

def commonWords : List String :=
  ["the", "and", "or", "but", "in", "on", "at", "to", "for", "of", "with", "by"]

/-- AIWebsiteIndexer._create_fallback_result: a degraded record built from
the extracted title/description, with basic keywords and an explicit error
field. -/
def createFallbackResult (url : String) (content : IcContent)
    (errorMsg : String) : IcResult :=
  let text := pyLower (content.title ++ " " ++ content.description)
  let kws := (((splitWordsAux text.data []).map String.mk).filter
    (fun w => decide (w.length > 3 ∧ w ∉ commonWords))).take 5
  { url := url
    title := content.title
    description := content.description
    keywords := kws
    valuable_content := ["Basic extraction - " ++ errorMsg]
    content_type := "unknown"
    main_topics := kws.take 3
    target_audience := "unknown"
    content_length := content.main_content.length
    has_meta_description := content.description ≠ ""
    internal_links_count := content.links.length
    error := some errorMsg }

inductive IcReply where
  | ok (text : String)
  | exn (msg : String)
  deriving Repr, DecidableEq

/-- Strip the response of markdown code fences as analyze_with_groq does
(response_text[7:-3] after a leading fence). -/
def stripFences (t : String) : String :=
  if pyStartsWith t (String.mk ['\x60', '\x60', '\x60'] ++ "json") then
    let d := t.data.drop 7
    ⟨d.take (d.length - 3)⟩
  else if pyStartsWith t (String.mk ['\x60', '\x60', '\x60']) then
    let d := t.data.drop 3
    ⟨d.take (d.length - 3)⟩
  else t

/-- AIWebsiteIndexer.analyze_with_groq: falls back when the content is too
short, the API raises, or the JSON does not parse; on success adds the
extraction metadata and no error marker. -/
def analyze_with_groq (jl : String → Option IcJson) (url : String)
    (content : IcContent) (reply : IcReply) : IcResult :=
  if content.main_content.length < 50 then
    createFallbackResult url content "Insufficient content"
  else
    match reply with
    | .exn msg => createFallbackResult url content ("Analysis error: " ++ msg)
    | .ok text =>
      match jl (stripFences text) with
      | none => createFallbackResult url content "JSON parsing failed"
      | some j =>
        { url := j.url
          title := j.title
          description := j.description
          keywords := j.keywords
          valuable_content := j.valuable_content
          content_type := j.content_type
          main_topics := j.main_topics
          target_audience := j.target_audience
          content_length := content.main_content.length
          has_meta_description := content.description ≠ ""
          internal_links_count := content.links.length
          error := none }

/-- AIWebsiteIndexer.process_urls: one record appended per URL whose
extracted main content is non-empty (analyze_with_groq never raises), no
record otherwise. -/
def process_urls (extractOf : String → IcContent)
    (jl : String → Option IcJson) (replyOf : String → IcReply)
    (urls : List String) : List IcResult :=
  urls.filterMap (fun url =>
    if (extractOf url).main_content ≠ "" then
      some (analyze_with_groq jl url (extractOf url) (replyOf url))
    else none)

end IndexerCrawler


/-- C3: every URL whose fetch and content extraction succeed yields exactly
one IndexRecord even when the external Analyzer fails or returns
unparseable output: in indexer.py process_url always returns one record
for extracted content (with empty keywords/topics and low/zero relevance
plus the error description when the analyzer call fails or its output has
no parseable JSON), and in indexer_crawler.py the fallback record carries
the explicit error field while process_urls emits exactly one record per
successfully extracted URL whatever the analyzer does. -/
theorem c3_analyzer_failure_degraded_record :
    (∀ (jx : String → Indexer.JsonExtract) (reply : Indexer.GroqReply)
        (cd : Indexer.ContentData),
      ∃ r, Indexer.process_url jx (some cd) reply = some r) ∧
    (∀ (jx : String → Indexer.JsonExtract) (reply : Indexer.GroqReply),
      Indexer.process_url jx none reply = none) ∧
    (∀ (jx : String → Indexer.JsonExtract) (cd : Indexer.ContentData),
      ∃ r, Indexer.process_url jx (some cd) Indexer.GroqReply.exn = some r ∧
        r.keywords = [] ∧ r.main_topics = [] ∧ r.relevance_score = 0 ∧
        r.description = "Errore nell'analisi") ∧
    (∀ (jx : String → Indexer.JsonExtract) (cd : Indexer.ContentData)
        (text : String), jx text = Indexer.JsonExtract.noMatch →
      ∃ r, Indexer.process_url jx (some cd) (Indexer.GroqReply.ok text) = some r ∧
        r.keywords = [] ∧ r.main_topics = [] ∧ r.relevance_score = 1 / 10 ∧
        r.description = "Contenuto non analizzabile") ∧
    (∀ (url : String) (content : IndexerCrawler.IcContent) (e : String),
      (IndexerCrawler.createFallbackResult url content e).error = some e ∧
      (IndexerCrawler.createFallbackResult url content e).content_type =
        "unknown") ∧
    (∀ (extractOf : String → IndexerCrawler.IcContent)
        (jl : String → Option IndexerCrawler.IcJson)
        (replyOf : String → IndexerCrawler.IcReply) (urls : List String),
      (IndexerCrawler.process_urls extractOf jl replyOf urls).length =
        (urls.filter (fun u => decide ((extractOf u).main_content ≠ ""))).length) := by
  refine ⟨?_, ?_, ?_, ?_, ?_, ?_⟩
  · intro jx reply cd
    exact ⟨_, rfl⟩
  · intro jx reply
    rfl
  · intro jx cd
    exact ⟨_, rfl, rfl, rfl, rfl, rfl⟩
  · intro jx cd text hjx
    have hana : Indexer.analyze_with_groq jx (Indexer.GroqReply.ok text) =
        Indexer.noJsonFallback := by
      unfold Indexer.analyze_with_groq
      simp [hjx]
    refine ⟨⟨cd.url, cd.title, [], "Contenuto non analizzabile", 1 / 10, "other",
      [], "unknown", "neutral", "general", "low", cd.internal_links,
      if cd.markdown_content = "" then 0
      else Indexer.pyWordCount cd.markdown_content⟩, ?_, rfl, rfl, rfl, rfl⟩
    unfold Indexer.process_url
    rw [hana]
    rfl
  · intro url content e
    exact ⟨rfl, rfl⟩
  · intro extractOf jl replyOf urls
    unfold IndexerCrawler.process_urls
    induction urls with
    | nil => rfl
    | cons u us ih =>
      by_cases hc : (extractOf u).main_content = ""
      · simpa [List.filterMap_cons, List.filter_cons, hc] using ih
      · simpa [List.filterMap_cons, List.filter_cons, hc] using ih

theorem c3_witness :
    ((fun _ : String => Indexer.JsonExtract.noMatch) "t" =
        Indexer.JsonExtract.noMatch ∧
      ∃ r, Indexer.process_url (fun _ => Indexer.JsonExtract.noMatch)
          (some ⟨"https://e.org/p", "T", "body text", []⟩)
          (Indexer.GroqReply.ok "t") = some r ∧
        r.keywords = [] ∧ r.main_topics = [] ∧ r.relevance_score = 1 / 10 ∧
        r.description = "Contenuto non analizzabile") := by
  constructor
  · rfl
  · exact (c3_analyzer_failure_degraded_record.2.2.2.1
      (fun _ => Indexer.JsonExtract.noMatch)
      ⟨"https://e.org/p", "T", "body text", []⟩ "t" rfl)

/-! ## A DOM model for the BeautifulSoup operations the extractors use -/

inductive Node where
  | elem (tag : String) (attrs : List (String × String)) (children : List Node)
  | text (s : String)
  deriving Repr

/-- tag.get(name) / tag[name]. -/
def attrOf (attrs : List (String × String)) (name : String) : Option String :=
  (attrs.find? (fun p => p.1 == name)).map Prod.snd

mutual

/-- element.decompose() for every element whose tag is in bad:
the element and its whole subtree are removed. -/
def removeTags (bad : List String) : Node → Option Node
  | .text s => some (.text s)
  | .elem tag attrs children =>
    if tag ∈ bad then none
    else some (.elem tag attrs (removeTagsList bad children))

def removeTagsList (bad : List String) : List Node → List Node
  | [] => []
  | n :: ns =>
    match removeTags bad n with
    | none => removeTagsList bad ns
    | some m => m :: removeTagsList bad ns

end

mutual

/-- The strings of the text descendants, in document order. -/
def textsOf : Node → List String
  | .text s => [s]
  | .elem _ _ children => textsOfList children

def textsOfList : List Node → List String
  | [] => []
  | n :: ns => textsOf n ++ textsOfList ns

end

/-- element.get_text(). -/
def getText (n : Node) : String :=
  String.join (textsOf n)

/-- element.get_text(separator=' ', strip=True). -/
def getTextSepStrip (n : Node) : String :=
  String.intercalate " " (((textsOf n).map pyStrip).filter (fun s => s ≠ ""))

mutual

/-- soup.find(t): first element with the given tag, in document order. -/
def findTag (t : String) : Node → Option Node
  | .text _ => none
  | .elem tag attrs children =>
    if tag == t then some (.elem tag attrs children) else findTagList t children

def findTagList (t : String) : List Node → Option Node
  | [] => none
  | n :: ns =>
    match findTag t n with
    | some m => some m
    | none => findTagList t ns

end

mutual

/-- soup.find('meta', attrs={'name': name}). -/
def findMeta (name : String) : Node → Option Node
  | .text _ => none
  | .elem tag attrs children =>
    if tag == "meta" && attrOf attrs "name" == some name then
      some (.elem tag attrs children)
    else findMetaList name children

def findMetaList (name : String) : List Node → Option Node
  | [] => none
  | n :: ns =>
    match findMeta name n with
    | some m => some m
    | none => findMetaList name ns

end

/-- The CSS selectors the two extractors use. -/
inductive Selector where
  | tagSel (t : String)
  | clsSel (c : String)
  | idSel (i : String)
  | attrSel (name value : String)
  deriving Repr

def selMatches (sel : Selector) (tag : String)
    (attrs : List (String × String)) : Bool :=
  match sel with
  | .tagSel t => tag == t
  | .clsSel c =>
    match attrOf attrs "class" with
    | some s => ((tokensBy (fun w => !w.isWhitespace) s.data []).map String.mk).contains c
    | none => false
  | .idSel i => attrOf attrs "id" == some i
  | .attrSel name value => attrOf attrs name == some value

mutual

/-- soup.select_one(sel): first matching element in document order. -/
def selectOne (sel : Selector) : Node → Option Node
  | .text _ => none
  | .elem tag attrs children =>
    if selMatches sel tag attrs then some (.elem tag attrs children)
    else selectOneList sel children

def selectOneList (sel : Selector) : List Node → Option Node
  | [] => none
  | n :: ns =>
    match selectOne sel n with
    | some m => some m
    | none => selectOneList sel ns

end

/-- soup.select_one over an ordered list of selectors: the loop
for selector in [...]: ... if found: break. -/
def selectChain (sels : List Selector) (soup : List Node) : Option Node :=
  match sels with
  | [] => none
  | sel :: rest =>
    match selectOneList sel soup with
    | some n => some n
    | none => selectChain rest soup

mutual

/-- soup.find_all('a', href=True): every anchor element carrying an href
attribute, in document order (descendants of anchors included). -/
def anchors : Node → List Node
  | .text _ => []
  | .elem tag attrs children =>
    (if tag == "a" && (attrOf attrs "href").isSome then
      [Node.elem tag attrs children]
    else []) ++ anchorsList children

def anchorsList : List Node → List Node
  | [] => []
  | n :: ns => anchors n ++ anchorsList ns

end

/-- link['href'] (empty when absent; anchors always carry one). -/
def nodeHref : Node → String
  | .elem _ attrs _ => (attrOf attrs "href").getD ""
  | .text _ => ""


def containsSubAux (sub : List Char) : List Char → Bool
  | [] => listPrefix sub []
  | c :: rest => listPrefix sub (c :: rest) || containsSubAux sub rest

/-- base_domain in href: Python substring containment. -/
def containsSub (s sub : String) : Bool :=
  containsSubAux sub.data s.data

/-- re.sub of one-or-more whitespace to a single space: each maximal
whitespace run becomes one space (prevWs tracks whether the previous
character was part of a run). -/
def collapseWsAux : Bool → List Char → List Char
  | _, [] => []
  | prevWs, c :: cs =>
    if Char.isWhitespace c then
      if prevWs then collapseWsAux true cs else ' ' :: collapseWsAux true cs
    else c :: collapseWsAux false cs

/-- re.sub of whitespace runs to single spaces followed by .strip(). -/
def normSpaces (s : String) : String :=
  pyStrip ⟨collapseWsAux false s.data⟩

namespace Indexer

/-- The tags extract_clean_content decomposes. -/
def badTags : List String :=
  ["script", "style", "nav", "header", "footer", "aside", "noscript"]

/-- The main-content selector chain of extract_clean_content. -/
def contentSelectors : List Selector :=
  [.tagSel "main", .tagSel "article", .clsSel "content", .idSel "content",
   .clsSel "main-content", .clsSel "post-content"]

/-- The main-content region extract_clean_content settles on: the selector
chain, falling back to the body. -/
def mainRegion (cleaned : List Node) : Option Node :=
  match selectChain contentSelectors cleaned with
  | some n => some n
  | none => findTagList "body" cleaned

/-- One iteration of the internal-links loop of extract_clean_content:
href and stripped text must be non-empty, root-relative hrefs are resolved
against the page URL, and the (possibly resolved) href must contain the
base domain or start with a slash. -/
def linkEntry (ujoin : String → String → String) (url baseDomain : String)
    (a : Node) : Option (String × String) :=
  let href0 := nodeHref a
  let text := pyStrip (getText a)
  if href0 ≠ "" ∧ text ≠ "" then
    let href := if pyStartsWith href0 "/" then ujoin url href0 else href0
    if containsSub href baseDomain ∨ pyStartsWith href "/" = true then some (href, text)
    else none
  else none

/-- indexer.py WebIndexerBot.extract_clean_content, given the fetched
document.  mdClean is the external markdownify conversion composed with
the two whitespace re.sub cleanups; the byte cap and the link cap are the
literal [:8000] and [:20] of the source.  Returns none when no content
region is found. -/
def extract_clean_content (mdClean : Node → String)
    (ujoin : String → String → String) (url : String) (soup : List Node) :
    Option ContentData :=
  match mainRegion (removeTagsList badTags soup) with
  | none => none
  | some mc =>
    some
      { url := url
        title :=
          match findTagList "title" (removeTagsList badTags soup) with
          | some t => pyStrip (getText t)
          | none => ""
        markdown_content := ⟨(mdClean mc).data.take 8000⟩
        internal_links := ((anchors mc).filterMap
          (linkEntry ujoin url (urlNetloc url))).take 20 }

end Indexer

namespace IndexerCrawler

/-- The names extract_webpage_content decomposes (the class-like entries
never match a tag name, exactly as in the source where they are passed to
soup() as tag names). -/
def badTags2 : List String :=
  ["script", "style", "nav", "footer", "header", "aside", ".navigation",
   ".nav", ".menu", ".sidebar", ".breadcrumb"]

/-- The main-content selector chain of extract_webpage_content. -/
def contentSelectors2 : List Selector :=
  [.tagSel "main", .tagSel "article", .attrSel "role" "main",
   .clsSel "content", .idSel "content", .clsSel "main-content"]

/-- One iteration of the links loop of extract_webpage_content: every
anchor with a non-empty href is resolved with urljoin, kept when its
stripped text is non-empty — no domain filtering, and the anchors come
from the whole (cleaned) soup. -/
def icLinkEntry (ujoin : String → String → String) (url : String)
    (a : Node) : Option (String × String) :=
  let href := nodeHref a
  if href ≠ "" then
    let text := pyStrip (getText a)
    if text ≠ "" then some (ujoin url href, text) else none
  else none

/-- indexer_crawler.py AIWebsiteIndexer.extract_webpage_content, given the
fetched document. -/
def extract_webpage_content (ujoin : String → String → String) (url : String)
    (soup : List Node) : IcContent :=
  let cleaned := removeTagsList badTags2 soup
  let titleText :=
    match findTagList "title" cleaned with
    | some t => pyStrip (getText t)
    | none => ""
  let description :=
    match findMetaList "description" cleaned with
    | some (.elem _ attrs _) => pyStrip ((attrOf attrs "content").getD "")
    | _ => ""
  let main0 :=
    match selectChain contentSelectors2 cleaned with
    | some el => getTextSepStrip el
    | none => ""
  let main1 :=
    if main0 = "" then
      match findTagList "body" cleaned with
      | some b => getTextSepStrip b
      | none => main0
    else main0
  let mainContent : String := ⟨(normSpaces main1).data.take 4000⟩
  let links := ((anchorsList cleaned).filterMap (icLinkEntry ujoin url)).take 20
  { title := titleText
    description := description
    main_content := mainContent
    links := links }

end IndexerCrawler


/-- C8 as stated is false for indexer_crawler.py: its link extraction
walks the whole cleaned document, not the selected main-content region.
Here the selected region is the main element (whose anchor list is empty),
yet the out-of-region link next to it is returned. -/
theorem c8_counterexample :
    (IndexerCrawler.extract_webpage_content (fun _ h => h) "https://x.org/"
      [Node.elem "body" [] [Node.elem "main" [] [Node.text "hello"],
        Node.elem "a" [("href", "https://x.org/out")] [Node.text "Out"]]]).links =
      [("https://x.org/out", "Out")] ∧
    (selectChain IndexerCrawler.contentSelectors2
      [Node.elem "body" [] [Node.elem "main" [] [Node.text "hello"],
        Node.elem "a" [("href", "https://x.org/out")] [Node.text "Out"]]]).map
        (fun n => (anchors n).length) = some 0 := by
  constructor
  · rfl
  · rfl

/-- C8 amended: both extractors cap the main text at a fixed character
budget (8000 for extract_clean_content, 4000 for extract_webpage_content;
beyond the cap content is dropped) and cap links at 20; the links of
indexer.py extract_clean_content come only from the selected main-content
region, while indexer_crawler.py extract_webpage_content takes links from
the entire cleaned document (scripts, nav, footer etc. removed). -/
theorem c8_extractor_caps (mdClean : Node → String)
    (ujoin : String → String → String) (url : String) (soup : List Node) :
    (∀ d, Indexer.extract_clean_content mdClean ujoin url soup = some d →
      d.markdown_content.length ≤ 8000 ∧ d.internal_links.length ≤ 20 ∧
      ∃ mc, Indexer.mainRegion (removeTagsList Indexer.badTags soup) = some mc ∧
        ∀ l ∈ d.internal_links, ∃ a ∈ anchors mc,
          Indexer.linkEntry ujoin url (urlNetloc url) a = some l) ∧
    ((IndexerCrawler.extract_webpage_content ujoin url soup).main_content.length ≤
        4000 ∧
      (IndexerCrawler.extract_webpage_content ujoin url soup).links.length ≤ 20 ∧
      ∀ l ∈ (IndexerCrawler.extract_webpage_content ujoin url soup).links,
        ∃ a ∈ anchorsList (removeTagsList IndexerCrawler.badTags2 soup),
          IndexerCrawler.icLinkEntry ujoin url a = some l) := by
  constructor
  · intro d h
    unfold Indexer.extract_clean_content at h
    rcases hm : Indexer.mainRegion (removeTagsList Indexer.badTags soup) with _ | mc
    · rw [hm] at h
      simp at h
    · rw [hm] at h
      simp only [Option.some_inj] at h
      subst h
      refine ⟨?_, ?_, mc, rfl, ?_⟩
      · show ((mdClean mc).data.take 8000).length ≤ 8000
        exact List.length_take_le _ _
      · exact List.length_take_le _ _
      · intro l hl
        exact List.mem_filterMap.mp ((List.take_sublist _ _).mem hl)
  · refine ⟨?_, ?_, ?_⟩
    · show ((normSpaces _).data.take 4000).length ≤ 4000
      exact List.length_take_le _ _
    · exact List.length_take_le _ _
    · intro l hl
      exact List.mem_filterMap.mp ((List.take_sublist _ _).mem hl)

theorem c8_witness :
    (Indexer.extract_clean_content (fun _ => "md") (fun _ h => h) "https://e.org/"
        [Node.elem "body" [] [Node.elem "main" []
          [Node.elem "a" [("href", "https://e.org/x")] [Node.text "L"],
           Node.text "hi"]]] =
      some ⟨"https://e.org/", "", "md", [("https://e.org/x", "L")]⟩) ∧
    ((⟨"https://e.org/", "", "md",
        [("https://e.org/x", "L")]⟩ : Indexer.ContentData).markdown_content.length ≤
        8000 ∧
      (⟨"https://e.org/", "", "md",
        [("https://e.org/x", "L")]⟩ : Indexer.ContentData).internal_links.length ≤
        20 ∧
      ∃ mc, Indexer.mainRegion (removeTagsList Indexer.badTags
          [Node.elem "body" [] [Node.elem "main" []
            [Node.elem "a" [("href", "https://e.org/x")] [Node.text "L"],
             Node.text "hi"]]]) = some mc ∧
        ∀ l ∈ (⟨"https://e.org/", "", "md",
            [("https://e.org/x", "L")]⟩ : Indexer.ContentData).internal_links,
          ∃ a ∈ anchors mc,
            Indexer.linkEntry (fun _ h => h) "https://e.org/"
              (urlNetloc "https://e.org/") a = some l) :=
  ⟨by rfl,
   (c8_extractor_caps (fun _ => "md") (fun _ h => h) "https://e.org/"
      [Node.elem "body" [] [Node.elem "main" []
        [Node.elem "a" [("href", "https://e.org/x")] [Node.text "L"],
         Node.text "hi"]]]).1
     ⟨"https://e.org/", "", "md", [("https://e.org/x", "L")]⟩ (by rfl)⟩

/-! ## ai_searcher.py / app.py SearchBot.search_by_keywords

The fuzzywuzzy similarity functions enter as oracles (ratio for whole-string
similarity, partialRatio for substring similarity; both return 0..100).
Scores are exact rationals; an item is a record of the four consulted
fields. -/

namespace Searcher

structure SearchItem where
  keywords : List String
  description : String
  title : String
  main_topics : List String
  deriving Repr, DecidableEq

/-- A result entry: the item plus the added search_score and the match
lines (the 'matches' list of the source). -/
structure SearchResult where
  item : SearchItem
  search_score : ℚ
  matchLines : List String
  deriving Repr, DecidableEq

/-- One of the two per-element scoring loops (keywords weighted 2, topics
weighted 1.2): when the similarity exceeds the threshold, add
similarity times the weight to the score and record a match line. -/
def weightedFold (w : ℚ) (f : String → Nat) (g : String → String) (t : Int)
    (l : List String) (acc : ℚ × List String) : ℚ × List String :=
  l.foldl (fun acc x =>
    if (f x : Int) > t then (acc.1 + (f x : ℚ) * w, acc.2 ++ [g x]) else acc) acc

/-- The description contribution (partial_ratio, weight 1, only when the
description is non-empty and the similarity exceeds the threshold). -/
def descrStep (partialRatio : String → String → Nat) (qLower : String)
    (t : Int) (item : SearchItem) (acc : ℚ × List String) : ℚ × List String :=
  if item.description ≠ "" ∧
      ((partialRatio qLower (pyLower item.description) : Int) > t) then
    (acc.1 + (partialRatio qLower (pyLower item.description) : ℚ),
     acc.2 ++ ["description: " ++ String.mk (item.description.data.take 100)
       ++ "..."])
  else acc

/-- The title contribution (partial_ratio, weight 1.5). -/
def titleStep (partialRatio : String → String → Nat) (qLower : String)
    (t : Int) (item : SearchItem) (acc : ℚ × List String) : ℚ × List String :=
  if item.title ≠ "" ∧
      ((partialRatio qLower (pyLower item.title) : Int) > t) then
    (acc.1 + (partialRatio qLower (pyLower item.title) : ℚ) * 1.5,
     acc.2 ++ ["title: " ++ item.title])
  else acc

/-- The score and match list search_by_keywords computes for one item, in
source order: keywords (ratio, weight 2), description, title, main topics
(ratio, weight 1.2). -/
def scoreItem (ratio partialRatio : String → String → Nat) (qLower : String)
    (t : Int) (item : SearchItem) : ℚ × List String :=
  weightedFold 1.2 (fun tp => ratio qLower (pyLower tp))
    (fun tp => "topic: " ++ tp) t item.main_topics
    (titleStep partialRatio qLower t item
      (descrStep partialRatio qLower t item
        (weightedFold 2 (fun kw => ratio qLower (pyLower kw))
          (fun kw => "keyword: " ++ kw) t item.keywords (0, []))))

/-- SearchBot.search_by_keywords: keep the items with positive score, each
carrying search_score and matches, sorted by descending score. -/
def search_by_keywords (ratio partialRatio : String → String → Nat)
    (data : List SearchItem) (query : String) (threshold : Int) :
    List SearchResult :=
  (data.filterMap (fun item =>
    if 0 < (scoreItem ratio partialRatio (pyLower query) threshold item).1 then
      some ⟨item, (scoreItem ratio partialRatio (pyLower query) threshold item).1,
        (scoreItem ratio partialRatio (pyLower query) threshold item).2⟩
    else none)).mergeSort
    (fun a b => decide (b.search_score ≤ a.search_score))

/-- The per-field weighted-sum scoring the spec describes: each field
contributes its similarity times its weight, and only when the similarity
exceeds the threshold. -/
def claimScore (ratio partialRatio : String → String → Nat) (qLower : String)
    (t : Int) (item : SearchItem) : ℚ :=
  2 * (((item.keywords.map (fun kw => ratio qLower (pyLower kw))).filter
      (fun s => decide ((s : Int) > t))).map (fun n => (n : ℚ))).sum +
  (if item.description ≠ "" ∧
      ((partialRatio qLower (pyLower item.description) : Int) > t) then
    (partialRatio qLower (pyLower item.description) : ℚ) else 0) +
  1.5 * (if item.title ≠ "" ∧
      ((partialRatio qLower (pyLower item.title) : Int) > t) then
    (partialRatio qLower (pyLower item.title) : ℚ) else 0) +
  1.2 * (((item.main_topics.map (fun tp => ratio qLower (pyLower tp))).filter
      (fun s => decide ((s : Int) > t))).map (fun n => (n : ℚ))).sum

theorem weightedFold_fst (w : ℚ) (f : String → Nat) (g : String → String)
    (t : Int) (l : List String) : ∀ acc : ℚ × List String,
    (weightedFold w f g t l acc).1 =
      acc.1 + w * (((l.map f).filter (fun s => decide ((s : Int) > t))).map
        (fun n => (n : ℚ))).sum := by
  induction l with
  | nil =>
    intro acc
    simp [weightedFold]
  | cons x xs ih =>
    intro acc
    by_cases hx : (f x : Int) > t
    · have h1 : weightedFold w f g t (x :: xs) acc =
          weightedFold w f g t xs (acc.1 + (f x : ℚ) * w, acc.2 ++ [g x]) := by
        simp [weightedFold, List.foldl_cons, hx]
      rw [h1, ih]
      simp [List.filter_cons, hx]
      ring
    · have h1 : weightedFold w f g t (x :: xs) acc =
          weightedFold w f g t xs acc := by
        simp [weightedFold, List.foldl_cons, hx]
      rw [h1, ih]
      simp [List.filter_cons, hx]

theorem descrStep_fst (partialRatio : String → String → Nat) (qLower : String)
    (t : Int) (item : SearchItem) (acc : ℚ × List String) :
    (descrStep partialRatio qLower t item acc).1 =
      acc.1 + (if item.description ≠ "" ∧
          ((partialRatio qLower (pyLower item.description) : Int) > t) then
        (partialRatio qLower (pyLower item.description) : ℚ) else 0) := by
  unfold descrStep
  split
  · rfl
  · ring

theorem titleStep_fst (partialRatio : String → String → Nat) (qLower : String)
    (t : Int) (item : SearchItem) (acc : ℚ × List String) :
    (titleStep partialRatio qLower t item acc).1 =
      acc.1 + 1.5 * (if item.title ≠ "" ∧
          ((partialRatio qLower (pyLower item.title) : Int) > t) then
        (partialRatio qLower (pyLower item.title) : ℚ) else 0) := by
  unfold titleStep
  split
  · show _ + _ * (1.5 : ℚ) = _
    ring_nf
  · ring

theorem scoreItem_fst (ratio partialRatio : String → String → Nat)
    (qLower : String) (t : Int) (item : SearchItem) :
    (scoreItem ratio partialRatio qLower t item).1 =
      claimScore ratio partialRatio qLower t item := by
  unfold scoreItem claimScore
  rw [weightedFold_fst, titleStep_fst, descrStep_fst, weightedFold_fst]
  ring

/-- C9: search_by_keywords scores each indexed record by fuzzy similarity
over keywords, description, title and main topics with per-field
weighting (keywords 2, description 1, title 1.5, topics 1.2, a field
contributing only when its similarity strictly exceeds the threshold),
returns exactly the records whose total score is positive, each carrying
that weighted-sum score, and sorts the results by descending score. -/
theorem c9_search_by_keywords_scoring (ratio partialRatio : String → String → Nat)
    (data : List Searcher.SearchItem) (query : String) (threshold : Int) :
    (∀ r ∈ Searcher.search_by_keywords ratio partialRatio data query threshold,
      0 < r.search_score) ∧
    (Searcher.search_by_keywords ratio partialRatio data query threshold).Sorted
      (fun a b => b.search_score ≤ a.search_score) ∧
    (∀ r ∈ Searcher.search_by_keywords ratio partialRatio data query threshold,
      r.search_score =
        Searcher.claimScore ratio partialRatio (pyLower query) threshold r.item) ∧
    (∀ item ∈ data,
      0 < Searcher.claimScore ratio partialRatio (pyLower query) threshold item →
      ∃ r ∈ Searcher.search_by_keywords ratio partialRatio data query threshold,
        r.item = item ∧ r.search_score =
          Searcher.claimScore ratio partialRatio (pyLower query) threshold item) := by
  have hmem : ∀ r, r ∈ Searcher.search_by_keywords ratio partialRatio data query
        threshold ↔ ∃ item ∈ data,
      (0 < (Searcher.scoreItem ratio partialRatio (pyLower query) threshold item).1 ∧
        r = ⟨item,
          (Searcher.scoreItem ratio partialRatio (pyLower query) threshold item).1,
          (Searcher.scoreItem ratio partialRatio (pyLower query) threshold item).2⟩) := by
    intro r
    unfold Searcher.search_by_keywords
    rw [List.mem_mergeSort, List.mem_filterMap]
    constructor
    · rintro ⟨item, hitem, hf⟩
      by_cases hpos :
          0 < (Searcher.scoreItem ratio partialRatio (pyLower query) threshold item).1
      · rw [if_pos hpos] at hf
        exact ⟨item, hitem, hpos, (Option.some_inj.mp hf).symm⟩
      · rw [if_neg hpos] at hf
        exact absurd hf (by simp)
    · rintro ⟨item, hitem, hpos, rfl⟩
      exact ⟨item, hitem, by rw [if_pos hpos]⟩
  refine ⟨?_, ?_, ?_, ?_⟩
  · intro r hr
    obtain ⟨item, _, hpos, rfl⟩ := (hmem r).mp hr
    exact hpos
  · have hs := @List.sorted_mergeSort _
      (fun a b : Searcher.SearchResult =>
        decide (b.search_score ≤ a.search_score))
      (fun a b c hab hbc => by
        simp only [decide_eq_true_eq] at *
        exact le_trans hbc hab)
      (fun a b => by
        simp only [Bool.or_eq_true, decide_eq_true_eq]
        exact le_total b.search_score a.search_score)
      (data.filterMap (fun item =>
        if 0 < (Searcher.scoreItem ratio partialRatio (pyLower query) threshold
            item).1 then
          some ⟨item,
            (Searcher.scoreItem ratio partialRatio (pyLower query) threshold item).1,
            (Searcher.scoreItem ratio partialRatio (pyLower query) threshold item).2⟩
        else none))
    exact hs.imp (fun h => of_decide_eq_true h)
  · intro r hr
    obtain ⟨item, _, hpos, rfl⟩ := (hmem r).mp hr
    exact Searcher.scoreItem_fst ratio partialRatio (pyLower query) threshold item
  · intro item hitem hpos
    have hpos2 :
        0 < (Searcher.scoreItem ratio partialRatio (pyLower query) threshold item).1 := by
      rw [Searcher.scoreItem_fst]
      exact hpos
    refine ⟨⟨item,
      (Searcher.scoreItem ratio partialRatio (pyLower query) threshold item).1,
      (Searcher.scoreItem ratio partialRatio (pyLower query) threshold item).2⟩,
      (hmem _).mpr ⟨item, hitem, hpos2, rfl⟩, rfl, ?_⟩
    exact Searcher.scoreItem_fst ratio partialRatio (pyLower query) threshold item

theorem c9_witness :
    ((⟨["lean"], "d", "t", ["top"]⟩ : Searcher.SearchItem) ∈
        [(⟨["lean"], "d", "t", ["top"]⟩ : Searcher.SearchItem)] ∧
      0 < Searcher.claimScore (fun _ _ => 80) (fun _ _ => 80) (pyLower "q") 70
        ⟨["lean"], "d", "t", ["top"]⟩) ∧
    (∃ r ∈ Searcher.search_by_keywords (fun _ _ => 80) (fun _ _ => 80)
        [⟨["lean"], "d", "t", ["top"]⟩] "q" 70,
      r.item = (⟨["lean"], "d", "t", ["top"]⟩ : Searcher.SearchItem) ∧
      r.search_score = Searcher.claimScore (fun _ _ => 80) (fun _ _ => 80)
        (pyLower "q") 70 ⟨["lean"], "d", "t", ["top"]⟩) :=
  ⟨⟨by decide, by
     norm_num [Searcher.claimScore]
     repeat' split
     all_goals norm_num⟩,
   (c9_search_by_keywords_scoring (fun _ _ => 80) (fun _ _ => 80)
       [⟨["lean"], "d", "t", ["top"]⟩] "q" 70).2.2.2
     ⟨["lean"], "d", "t", ["top"]⟩ (by decide)
     (by
       norm_num [Searcher.claimScore]
       repeat' split
       all_goals norm_num)⟩

end Searcher

end UniSearch
